import Mathlib

/-!
Verification of the agent-ops watcher (src/agent-ops-watcher.ts).

The watcher polls a directory for markdown spec files, parses a YAML-style
frontmatter header and markdown body sections, and executes create / modify /
delete operations on a registry of worker agents, with a file-rename state
machine (APPLIED / FAILED / PENDING_APPROVAL / APPROVED) encoding outcomes.

Shallow embedding conventions:
  * JS strings are modelled as `List Char` (`Str`), so that all string
    operations have clean structural recursion for proofs.
  * The external database (db.js, spec section 6 "Registry client contract")
    is modelled as an in-memory association list inside `Sys`.
  * The filesystem is modelled as a list of directories plus a map from paths
    to file values; `FileVal.settings` models a settings.json produced by
    JSON.stringify of an `{ env }` object (read back by JSON.parse, a
    faithful round trip for the values this program writes).
  * External collaborators (cron-parser, env.js secret store, group-folder
    validation, the clock) are parameters bundled in `ExtEnv`.
  * Regex matching in parseSection / parseCodeBlock / parseFrontmatter is
    modelled per the semantics of the concrete patterns appearing in the
    source, applied line by line (the JS `\s` class can also consume a
    newline, letting a match cross a physical line in degenerate inputs such
    as a heading split across lines; those degenerate matches are not
    modelled).
-/

/-- JS strings, modelled as lists of characters. -/
abbrev Str := List Char

/-- Literal conversion from a Lean string literal to the model type. -/
def str (s : String) : Str := s.data

/-- Boolean prefix test (models JS String.startsWith). -/
def isPre : Str → Str → Bool
  | [], _ => true
  | _ :: _, [] => false
  | a :: as, b :: bs => a = b && isPre as bs

/-- Boolean suffix test (models JS String.endsWith). -/
def endsW (s suf : Str) : Bool := isPre suf.reverse s.reverse

/-- Substring test (models JS String.includes): the needle is a prefix of
some suffix of the haystack. -/
def containsStr : Str → Str → Bool
  | [], sub => isPre sub []
  | s@(_ :: t), sub => isPre sub s || containsStr t sub

/-- Index of the first occurrence of `sub` in `s` (models String.indexOf on a
substring, `none` for -1). -/
def firstIdxOf : Str → Str → Option Nat
  | [], sub => if isPre sub [] then some 0 else none
  | s@(_ :: t), sub =>
    if isPre sub s then some 0 else (firstIdxOf t sub).map (· + 1)

/-- Index of the first occurrence of a character (models String.indexOf). -/
def idxOfCh : Str → Char → Option Nat
  | [], _ => none
  | c :: t, x => if c = x then some 0 else (idxOfCh t x).map (· + 1)

/-- The JS whitespace characters relevant to this program (ASCII part of the
JS `\s` class and of String.trim). -/
def isWsCh (c : Char) : Bool :=
  c = ' ' || c = '\t' || c = '\n' || c = '\r' || c = '\x0b' || c = '\x0c'

/-- Models JS String.trimStart. -/
def trimStart (s : Str) : Str := s.dropWhile isWsCh

/-- Models JS String.trimEnd. -/
def trimEnd (s : Str) : Str := (s.reverse.dropWhile isWsCh).reverse

/-- Models JS String.trim. -/
def trim (s : Str) : Str := trimStart (trimEnd s)

/-- Models JS String.toLowerCase (ASCII). -/
def lowerStr (s : Str) : Str := s.map Char.toLower

/-- Split at a separator character; models JS String.split. Never returns an
empty list. -/
def splitCh (x : Char) : Str → List Str
  | [] => [[]]
  | c :: t =>
    if c = x then [] :: splitCh x t
    else match splitCh x t with
      | h :: r => (c :: h) :: r
      | [] => [[c]]

/-- Split at newlines; models JS String.split with separator newline. -/
def splitNl (s : Str) : List Str := splitCh '\n' s

/-- Join lines with newlines (inverse of `splitNl`). -/
def joinNl : List Str → Str
  | [] => []
  | [l] => l
  | l :: ls => l ++ '\n' :: joinNl ls

/-- Split a string at the first occurrence of a marker: returns the part
before the marker and the part after it, or `none` when the marker is absent.
Models the behaviour of a JS lazy regex group `([\s\S]*?)` followed by a
literal marker. -/
def splitMarker : Str → Str → Option (Str × Str)
  | [], m => if isPre m [] then some ([], []) else none
  | s@(c :: t), m =>
    if isPre m s then some ([], s.drop m.length)
    else (splitMarker t m).map (fun p => (c :: p.1, p.2))

/-- The part of `s` before the first occurrence of `m` (the whole of `s` when
`m` does not occur); models JS `s.split(m)[0]`. -/
def splitFirstAt (s m : Str) : Str :=
  match splitMarker s m with
  | some (a, _) => a
  | none => s

/-- Decimal rendering of a number (models JS template interpolation of a
number). -/
def natStr (n : Nat) : Str := Nat.toDigits 10 n

/-- Models `s.charAt(0).toUpperCase() + s.slice(1)`. -/
def capitalize : Str → Str
  | [] => []
  | c :: t => Char.toUpper c :: t

/-- Models Node path.join for two already-normal segments. -/
def pathJoin (a b : Str) : Str := a ++ '/' :: b

/-- Models Node path.basename: strips trailing separators, then takes the
last path component. -/
def basename (p : Str) : Str :=
  let q := (p.reverse.dropWhile (· = '/')).reverse
  match splitCh '/' q with
  | [] => []
  | l => l.getLastD []

/-- JS objects with string keys used by the loose YAML-ish decoders:
association lists in insertion order, keys unique by construction. -/
abbrev Obj := List (Str × Str)

/-- Property read (models `obj[key]`, `none` for undefined). -/
def objGet : Obj → Str → Option Str
  | [], _ => none
  | (k', v) :: t, k => if k' = k then some v else objGet t k

/-- Property write (models `obj[key] = value`: updates in place, else appends,
preserving JS property insertion order). -/
def objUpd : Obj → Str → Str → Obj
  | [], k, v => [(k, v)]
  | (k', v') :: t, k, v =>
    if k' = k then (k, v) :: t else (k', v') :: objUpd t k v

/-- Truthy property read: a property whose value is the empty string is
falsy in JS, so `obj.k || ...` skips it. -/
def objTruthy (o : Obj) (k : Str) : Option Str :=
  match objGet o k with
  | some v => if v = [] then none else some v
  | none => none

/-- First `some` produced by `f` over a list, in order. -/
def findSomeOpt (f : α → Option β) : List α → Option β
  | [] => none
  | a :: t =>
    match f a with
    | some b => some b
    | none => findSomeOpt f t

-- ### Data model (types.ts / db.js entities, per spec section 3)

/-- A container mount entry. -/
structure Mount where
  hostPath : Str
  containerPath : Str
  readonly : Bool
deriving DecidableEq, Repr

/-- Container configuration of a registered group. -/
structure ContainerConfig where
  additionalMounts : List Mount
  timeout : Option Nat
deriving DecidableEq, Repr

/-- A registered group (agent definition) in the registry. -/
structure RegisteredGroup where
  name : Str
  folder : Str
  trigger : Str
  added_at : Str
  containerConfig : Option ContainerConfig
  requiresTrigger : Bool
deriving DecidableEq, Repr

/-- A scheduled task bound to an agent. -/
structure ScheduledTask where
  id : Str
  group_folder : Str
  chat_jid : Str
  prompt : Str
  schedule_type : Str
  schedule_value : Str
  context_mode : Str
  next_run : Str
  status : Str
  created_at : Str
deriving DecidableEq, Repr

/-- File contents: plain text, or a settings.json holding an `{ env }`
object (JSON.stringify / JSON.parse round trip modelled structurally). -/
inductive FileVal where
  | text (s : Str)
  | settings (env : Obj)
deriving DecidableEq, Repr

/-- The mutable world the handlers act on: the registry and scheduled tasks
(external database, modelled from the spec: db.js is not under src/, the spec
section 6 gives its get/set/delete/list contract), and the filesystem. The
spec file being processed and the append-only log are modelled separately. -/
structure Sys where
  registry : List (Str × RegisteredGroup)
  tasks : List ScheduledTask
  files : List (Str × FileVal)
  dirs : List Str
deriving DecidableEq, Repr

/-- External collaborators (spec section 6): cron evaluator, secret store,
folder validation, clock. `cronNext e = none` models CronExpressionParser
throwing on an invalid expression, with `cronErr e` the thrown message. -/
structure ExtEnv where
  isValidGroupFolder : Str → Bool
  cronNext : Str → Option Str
  cronErr : Str → Str
  readEnvFile : List Str → Obj
  nowIso : Str
  nowMs : Str

/-- Spec operations. -/
inductive Op where
  | create
  | modify
  | delete
deriving DecidableEq, Repr

/-- Parsed frontmatter. -/
structure Frontmatter where
  operation : Op
  agent : Str
  model : Option Str
deriving DecidableEq, Repr

/-- Terminal outcome of processing one spec file, i.e. the rename the state
transition writer performs, with the appended note where one is written. -/
inductive Outcome where
  | applied
  | failed (note : Str)
  | pendingApproval
deriving DecidableEq, Repr

/-- Classification of a directory entry by the poll loop. -/
inductive FileClass where
  | skip
  | approvedFile
  | specFile
deriving DecidableEq, Repr

-- ### Constants (config.js is not under src/; modelled from the spec:
-- the spec's directory layout is relative to a project root, so the roots
-- are taken as the literal "groups" and "data")

def GROUPS_DIR : Str := str "groups"

def DATA_DIR : Str := str "data"

/-- path.join(GROUPS_DIR, 'main', 'shared'). -/
def SHARED_DIR : Str := pathJoin (pathJoin GROUPS_DIR (str "main")) (str "shared")

def MAX_CLAUDE_MD_LINES : Nat := 150

/-- MODEL_MAP: model aliases to full model identifiers. -/
def MODEL_MAP : Obj :=
  [ (str "opus", str "claude-opus-4-6"),
    (str "sonnet", str "claude-sonnet-4-6"),
    (str "haiku", str "claude-haiku-4-6"),
    (str "opus-4-6", str "claude-opus-4-6"),
    (str "sonnet-4-6", str "claude-sonnet-4-6"),
    (str "claude-opus-4-6", str "claude-opus-4-6"),
    (str "claude-sonnet-4-6", str "claude-sonnet-4-6") ]

/-- SELF_MOD_NAMES membership: agents requiring owner approval
(`SELF_MOD_NAMES.has(agent.toLowerCase())`). -/
def selfMod (agent : Str) : Bool :=
  lowerStr agent = str "orchestrator" || lowerStr agent = str "main"

-- ### Frontmatter parsing (parseFrontmatter)

/-- Decode the `key: value` lines of the YAML block into an object
(later lines with an equal key overwrite, lines without a colon are
skipped). -/
def fmLines (ls : List Str) : Obj :=
  ls.foldl
    (fun fm line =>
      match idxOfCh line ':' with
      | none => fm
      | some i => objUpd fm (trim (line.take i)) (trim (line.drop (i + 1))))
    []

/-- parseFrontmatter: the content must match
`^---\n([\s\S]*?)\n---\n([\s\S]*)$`; the lazy group makes the YAML block end
at the first `\n---\n`. Requires truthy `operation` and `agent` keys and a
recognized operation. -/
def parseFrontmatter (content : Str) : Option (Frontmatter × Str) :=
  if isPre (str "---\n") content then
    match splitMarker (content.drop 4) (str "\n---\n") with
    | none => none
    | some (yamlBlock, body) =>
      let fm := fmLines (splitNl yamlBlock)
      match objGet fm (str "operation"), objGet fm (str "agent") with
      | some opStr, some agent =>
        if agent = [] then none
        else
          let op? : Option Op :=
            if opStr = str "create" then some Op.create
            else if opStr = str "modify" then some Op.modify
            else if opStr = str "delete" then some Op.delete
            else none
          match op? with
          | none => none
          | some op => some (⟨op, agent, objGet fm (str "model")⟩, body)
      | _, _ => none
  else none

-- ### Body section parsing (parseSection)

/-- The section-name patterns the watcher passes to parseSection. Each is
interpolated into `^##\s+${heading}\s*$` with flags `im`; a `|` inside the
heading splits the whole regex into top-level alternatives, so only the
first alternative keeps the `^##\s+` anchor and only the last keeps
`\s*$`. -/
inductive Pat where
  | claudeMd        -- 'CLAUDE\.md'
  | appendClaudeMd  -- 'Append to CLAUDE\.md'
  | mounts          -- 'Mounts'
  | env             -- 'API Keys|Env|Environment'
  | tasks           -- 'Scheduled Tasks|Tasks'
deriving DecidableEq, Repr

/-- Fully anchored heading line: `^##\s+name\s*$` (case-insensitive);
the match consumes the whole line, so the leftover after the match is
empty. -/
def matchHeadExact (name : Str) (line : Str) : Bool :=
  isPre (str "##") line &&
    (let r := line.drop 2
     let r2 := r.dropWhile isWsCh
     decide (r2.length < r.length) && isPre (lowerStr name) (lowerStr r2) &&
       (r2.drop name.length).all isWsCh)

/-- Start-anchored alternative `^##\s+name` without an end anchor: returns
the rest of the line after the matched text. -/
def matchHeadPre (name : Str) (line : Str) : Option Str :=
  if isPre (str "##") line then
    let r := line.drop 2
    let r2 := r.dropWhile isWsCh
    if r2.length < r.length && isPre (lowerStr name) (lowerStr r2) then
      some (r2.drop name.length)
    else none
  else none

/-- End-anchored alternative `name\s*$` with no start anchor: the line,
less trailing whitespace, ends with the token (case-insensitive); the match
runs to the end of the line. -/
def matchSuffixTok (name : Str) (line : Str) : Bool :=
  endsW (lowerStr (trimEnd line)) (lowerStr name)

/-- Unanchored alternative: the token anywhere in the line
(case-insensitive); returns the rest of the line after the first
occurrence. -/
def matchAnywhere (tok : Str) (line : Str) : Option Str :=
  (firstIdxOf (lowerStr line) (lowerStr tok)).map (fun i => line.drop (i + tok.length))

/-- Whether a line matches the heading regex for a pattern, and the leftover
of the line after the match (JS `match.index + match[0].length` relative to
the line). For `env`, the middle alternative `Env` is completely unanchored
and always beats the dead `Environment\s*$` alternative at the same
position; for `tasks`, the unanchored-start `Tasks\s*$` alternative can
match any line ending in the token. -/
def lineMatch : Pat → Str → Option Str
  | Pat.claudeMd, l =>
    if matchHeadExact (str "CLAUDE.md") l then some [] else none
  | Pat.appendClaudeMd, l =>
    if matchHeadExact (str "Append to CLAUDE.md") l then some [] else none
  | Pat.mounts, l =>
    if matchHeadExact (str "Mounts") l then some [] else none
  | Pat.env, l =>
    match matchHeadPre (str "API Keys") l with
    | some lo => some lo
    | none => matchAnywhere (str "Env") l
  | Pat.tasks, l =>
    match matchHeadPre (str "Scheduled Tasks") l with
    | some lo => some lo
    | none => if matchSuffixTok (str "Tasks") l then some [] else none

/-- First line matching the heading regex (JS String.match finds the
leftmost match; line order equals position order). Returns the leftover of
the matched line together with the remaining lines: `body.slice(start)`
split at newlines is exactly `leftover :: remaining`. -/
def findHeading (p : Pat) : List Str → Option (Str × List Str)
  | [] => none
  | l :: t =>
    match lineMatch p l with
    | some lo => some (lo, t)
    | none => findHeading p t

/-- The scan for the next top-level `## ` heading outside a fenced code
block: fences toggle the in-block flag, and the first line starting with
`## ` while the flag is clear is the boundary. Returns the boundary line
index. -/
def findBoundary : List Str → Bool → Option Nat
  | [], _ => none
  | l :: t, b =>
    if isPre (str "```") l then (findBoundary t (!b)).map (· + 1)
    else if b = false && isPre (str "## ") l then some 0
    else (findBoundary t b).map (· + 1)

/-- The lines kept for the section: everything before the boundary, or all
lines when no boundary exists. -/
def collectSection (ls : List Str) (b : Bool) : List Str :=
  match findBoundary ls b with
  | none => ls
  | some k => ls.take k

/-- The trimmed text of the section located by the heading match, `none`
when no heading matches. -/
def sectionText (body : Str) (p : Pat) : Option Str :=
  match findHeading p (splitNl body) with
  | none => none
  | some (lo, t) => some (trim (joinNl (collectSection (lo :: t) false)))

/-- parseSection: `section.trim() || null` — the empty trimmed section is
falsy, so it collapses to the same null as a missing heading. -/
def parseSection (body : Str) (p : Pat) : Option Str :=
  match sectionText body p with
  | none => none
  | some sec => if sec = [] then none else some sec

-- ### parseCodeBlock

def isWordCh (c : Char) : Bool :=
  ('a' ≤ c && c ≤ 'z') || ('A' ≤ c && c ≤ 'Z') || ('0' ≤ c && c ≤ '9') || c = '_'

/-- A match of ```` ```[\w]*\n([\s\S]*?)``` ```` starting at the given
position: the opening fence with an optional info word, a newline, then the
lazy group up to the first closing fence. -/
def codeBlockAt (s : Str) : Option Str :=
  if isPre (str "```") s then
    match (s.drop 3).dropWhile isWordCh with
    | '\n' :: body => (splitMarker body (str "```")).map Prod.fst
    | _ => none
  else none

/-- parseCodeBlock: leftmost match of the fenced-block regex, trimmed;
`none` when the regex does not match anywhere. -/
def parseCodeBlock : Str → Option Str
  | [] => none
  | s@(_ :: t) =>
    match codeBlockAt s with
    | some b => some (trim b)
    | none => parseCodeBlock t

/-- `parseCodeBlock(section) || section`: an absent or falsy (empty) code
block falls back to the raw section text. -/
def codeBlockOr (sec : Str) : Str :=
  match parseCodeBlock sec with
  | some c => if c = [] then sec else c
  | none => sec

-- ### parseYamlList

/-- One step of the loose list decoder: a trimmed line starting with `- `
and containing a colon opens a new record; any other line containing a colon
extends the current record. -/
def yamlStep (acc : List Obj × Option Obj) (line : Str) : List Obj × Option Obj :=
  let t := trim line
  if isPre (str "- ") t && containsStr t (str ":") then
    let items := match acc.2 with
      | some c => acc.1 ++ [c]
      | none => acc.1
    let r := t.drop 2
    match idxOfCh r ':' with
    | some i => (items, some [(trim (r.take i), trim (r.drop (i + 1)))])
    | none => (items, some [])
  else
    match acc.2 with
    | some c =>
      if containsStr t (str ":") then
        match idxOfCh t ':' with
        | some i => (acc.1, some (objUpd c (trim (t.take i)) (trim (t.drop (i + 1)))))
        | none => (acc.1, some c)
      else (acc.1, some c)
    | none => acc

/-- parseYamlList: decode a section into records, leniently. -/
def parseYamlList (text : Str) : List Obj :=
  let r := (splitNl text).foldl yamlStep ([], none)
  match r.2 with
  | some c => r.1 ++ [c]
  | none => r.1

-- ### Mount isolation validation (validateMountsIsolation)

def SUBDIRS : List Str := [str "tasks", str "results", str "knowledge"]

/-- If the host path starts with `<SHARED_DIR>/<subdir>/`, the first path
component after that prefix (`hp.slice(len + 1).split('/')[0]`); `none`
when the prefix does not match. -/
def relAgent (hp : Str) (subdir : Str) : Option Str :=
  let root := pathJoin SHARED_DIR subdir ++ [ '/' ]
  if isPre root hp then some ((splitCh '/' (hp.drop root.length)).headD [])
  else none

/-- The violation message:
`Mount "<hp>" crosses into agent "<rel>" <subdir> directory`. -/
def violationMsg (hp rel subdir : Str) : Str :=
  str "Mount \"" ++ hp ++ str "\" crosses into agent \"" ++ rel ++ str "\" "
    ++ subdir ++ str " directory"

/-- The check of one mount against the three partition roots, in order. -/
def mountViolation (agentName : Str) (m : Mount) : Option Str :=
  findSomeOpt
    (fun subdir =>
      match relAgent m.hostPath subdir with
      | some rel =>
        if rel ≠ [] ∧ rel ≠ agentName then some (violationMsg m.hostPath rel subdir)
        else none
      | none => none)
    SUBDIRS

/-- validateMountsIsolation: first violation over the mount list, `none`
when every mount is clean. -/
def validateMountsIsolation (agentName : Str) (mounts : List Mount) : Option Str :=
  findSomeOpt (mountViolation agentName) mounts

-- ### resolveModel

/-- resolveModel: default for missing/empty, alias lookup, pass-through. -/
def resolveModel (model : Option Str) : Str :=
  match model with
  | none => str "claude-sonnet-4-6"
  | some m =>
    if m = [] then str "claude-sonnet-4-6"
    else
      match objGet MODEL_MAP (trim (lowerStr m)) with
      | some v => v
      | none => m

-- ### Registry and filesystem primitives

/-- Registry lookup (db getRegisteredGroup). -/
def regGet : List (Str × RegisteredGroup) → Str → Option RegisteredGroup
  | [], _ => none
  | (j, g) :: t, jid => if j = jid then some g else regGet t jid

/-- Registry upsert (db setRegisteredGroup). -/
def regUpd : List (Str × RegisteredGroup) → Str → RegisteredGroup → List (Str × RegisteredGroup)
  | [], jid, g => [(jid, g)]
  | (j, g') :: t, jid, g =>
    if j = jid then (jid, g) :: t else (j, g') :: regUpd t jid g

def getRegisteredGroup (s : Sys) (jid : Str) : Option RegisteredGroup :=
  regGet s.registry jid

def setRegisteredGroup (s : Sys) (jid : Str) (g : RegisteredGroup) : Sys :=
  { s with registry := regUpd s.registry jid g }

def deleteRegisteredGroup (s : Sys) (jid : Str) : Sys :=
  { s with registry := s.registry.filter (fun p => p.1 ≠ jid) }

def getTasksForGroup (s : Sys) (folder : Str) : List ScheduledTask :=
  s.tasks.filter (fun t => t.group_folder = folder)

def createTask (s : Sys) (t : ScheduledTask) : Sys :=
  { s with tasks := s.tasks ++ [t] }

def deleteTask (s : Sys) (id : Str) : Sys :=
  { s with tasks := s.tasks.filter (fun t => t.id ≠ id) }

/-- db updateTask with the patch handleModify sends (prompt, schedule_value,
next_run, status). -/
def updateTask (s : Sys) (id prompt sched nextRun status : Str) : Sys :=
  { s with tasks := s.tasks.map (fun t =>
      if t.id = id then
        { t with prompt := prompt, schedule_value := sched,
                 next_run := nextRun, status := status }
      else t) }

/-- Association-list lookup for files. -/
def filesGet : List (Str × FileVal) → Str → Option FileVal
  | [], _ => none
  | (q, v) :: t, p => if q = p then some v else filesGet t p

/-- Association-list update-or-append for files. -/
def filesPut : List (Str × FileVal) → Str → FileVal → List (Str × FileVal)
  | [], p, v => [(p, v)]
  | (q, w) :: t, p, v =>
    if q = p then (p, v) :: t else (q, w) :: filesPut t p v

/-- File lookup. -/
def fileGet (s : Sys) (p : Str) : Option FileVal := filesGet s.files p

/-- fs.writeFileSync: create or overwrite. -/
def fileWrite (s : Sys) (p : Str) (v : FileVal) : Sys :=
  { s with files := filesPut s.files p v }

/-- fs.mkdirSync with recursive: true (the requested path is recorded;
ancestors are implied). -/
def addDir (s : Sys) (p : Str) : Sys :=
  { s with dirs := if p ∈ s.dirs then s.dirs else s.dirs ++ [p] }

def mkdirs (s : Sys) (ps : List Str) : Sys := ps.foldl addDir s

/-- fs.existsSync: a recorded file or directory at the path, or anything
recorded beneath it (ancestors of created entries exist on a real
filesystem). -/
def pathExists (s : Sys) (p : Str) : Bool :=
  s.dirs.any (fun d => d = p || isPre (p ++ [ '/' ]) d) ||
    s.files.any (fun f => f.1 = p || isPre (p ++ [ '/' ]) f.1)

/-- fs.rmSync with recursive: true — removes the path and everything
beneath it. -/
def rmRec (s : Sys) (p : Str) : Sys :=
  { s with
    dirs := s.dirs.filter (fun d => ¬ (d = p || isPre (p ++ [ '/' ]) d)),
    files := s.files.filter (fun f => ¬ (f.1 = p || isPre (p ++ [ '/' ]) f.1)) }

/-- Read a settings.json `{ env }` object: absent file yields the default
empty env; a non-settings file at that path models a JSON.parse throw
(`none`). -/
def readSettingsEnv (s : Sys) (p : Str) : Option Obj :=
  match fileGet s p with
  | none => some []
  | some (FileVal.settings e) => some e
  | some (FileVal.text _) => none

/-- Message for the (unreachable in practice) JSON.parse throw. -/
def jsonParseErrMsg : Str := str "Unexpected token in JSON"

-- ### Paths used by the handlers

def jidOf (folder : Str) : Str := str "agent:" ++ folder

def claudeMdPath (folder : Str) : Str :=
  pathJoin (pathJoin GROUPS_DIR folder) (str "CLAUDE.md")

def settingsDirOf (folder : Str) : Str :=
  pathJoin (pathJoin (pathJoin DATA_DIR (str "sessions")) folder) (str ".claude")

def settingsPath (folder : Str) : Str :=
  pathJoin (settingsDirOf folder) (str "settings.json")

/-- The seven shared partition directories handleCreate makes for a new
agent (note: keyed by the agent name, not by the registry folder). -/
def partitionDirs (agentName : Str) : List Str :=
  [ pathJoin SHARED_DIR (str "tasks/" ++ agentName ++ str "/inbox"),
    pathJoin SHARED_DIR (str "tasks/" ++ agentName ++ str "/active"),
    pathJoin SHARED_DIR (str "tasks/" ++ agentName ++ str "/archive"),
    pathJoin SHARED_DIR (str "results/" ++ agentName ++ str "/inbox"),
    pathJoin SHARED_DIR (str "results/" ++ agentName ++ str "/archive"),
    pathJoin SHARED_DIR (str "knowledge/" ++ agentName),
    pathJoin SHARED_DIR (str "knowledge/" ++ agentName ++ str "/archive") ]

-- ### Mounts and env decoding shared by create/modify

/-- Decode mount records from a Mounts section: entries with a truthy
hostPath/host, container path falling back to the basename, readonly
flag from the literal strings. -/
def mountsOfItems (items : List Obj) : List Mount :=
  items.filterMap (fun it =>
    match (objTruthy it (str "hostPath")).orElse (fun _ => objTruthy it (str "host")) with
    | none => none
    | some hp =>
      some
        { hostPath := hp,
          containerPath :=
            ((objTruthy it (str "containerPath")).orElse
              (fun _ => objTruthy it (str "container"))).getD (basename hp),
          readonly :=
            decide (objGet it (str "readonly") = some (str "true")) ||
              decide (objGet it (str "readonly") = some (str "yes")) })

/-- The custom mounts declared in the body. -/
def customMountsOf (body : Str) : List Mount :=
  match parseSection body Pat.mounts with
  | none => []
  | some sec => mountsOfItems (parseYamlList sec)

/-- The four standard mounts of a new agent: its three partitions
read-write, the shared root read-only. -/
def standardMounts (agentName : Str) : List Mount :=
  [ { hostPath := pathJoin (pathJoin SHARED_DIR (str "tasks")) agentName,
      containerPath := str "tasks", readonly := false },
    { hostPath := pathJoin (pathJoin SHARED_DIR (str "results")) agentName,
      containerPath := str "results", readonly := false },
    { hostPath := pathJoin (pathJoin SHARED_DIR (str "knowledge")) agentName,
      containerPath := str "knowledge", readonly := false },
    { hostPath := SHARED_DIR, containerPath := str "shared", readonly := true } ]

/-- All mounts handleCreate validates and registers. -/
def createMounts (agentName body : Str) : List Mount :=
  standardMounts agentName ++ customMountsOf body

/-- `parseSection(body, 'CLAUDE\.md')` then `parseCodeBlock(...) || section`. -/
def claudeCandidate (body : Str) : Option Str :=
  (parseSection body Pat.claudeMd).map codeBlockOr

/-- The 150-line ceiling check with its error message. -/
def checkClaudeSize (content : Str) : Option Str :=
  let lineCount := (splitNl content).length
  if MAX_CLAUDE_MD_LINES < lineCount then
    some (str "CLAUDE.md is " ++ natStr lineCount ++ str " lines (max "
      ++ natStr MAX_CLAUDE_MD_LINES ++ str ")")
  else none

/-- `envItems.map(item => Object.values(item)[0] || Object.keys(item)[0]).filter(Boolean)`:
the first value of each record, falling back to its first key, dropping
falsy results. -/
def envKeyNames (items : List Obj) : List Str :=
  items.filterMap (fun it =>
    match it.head? with
    | none => none
    | some (k, v) => if v ≠ [] then some v else if k ≠ [] then some k else none)

/-- Object.assign target-mutating merge. -/
def assignAll (base : Obj) (extra : Obj) : Obj :=
  extra.foldl (fun e p => objUpd e p.1 p.2) base

/-- The env object handleCreate writes into settings.json. -/
def createEnvVars (ext : ExtEnv) (body : Str) (model : Option Str) : Obj :=
  let base : Obj :=
    [ (str "CLAUDE_CODE_EXPERIMENTAL_AGENT_TEAMS", str "1"),
      (str "CLAUDE_CODE_ADDITIONAL_DIRECTORIES_CLAUDE_MD", str "1"),
      (str "CLAUDE_CODE_DISABLE_AUTO_MEMORY", str "0"),
      (str "CLAUDE_CODE_USE_MODEL", resolveModel model) ]
  match parseSection body Pat.env with
  | none => base
  | some sec =>
    let keyNames := envKeyNames (parseYamlList sec)
    if keyNames = [] then base
    else assignAll base (ext.readEnvFile keyNames)

-- ### CREATE operation (handleCreate)

/-- The group record handleCreate registers. -/
def createdGroup (ext : ExtEnv) (agentName body : Str) : RegisteredGroup :=
  { name := capitalize agentName ++ str " Specialist",
    folder := agentName ++ str "-specialist",
    trigger := str "@andy",
    added_at := ext.nowIso,
    containerConfig := some
      { additionalMounts := createMounts agentName body, timeout := some 600000 },
    requiresTrigger := false }

/-- The per-item fields of a scheduled-task record
(`item.cron || item.schedule`, `item.prompt || item.description || ''`). -/
def taskCron (it : Obj) : Option Str :=
  (objTruthy it (str "cron")).orElse (fun _ => objTruthy it (str "schedule"))

def taskPrompt (it : Obj) : Str :=
  ((objTruthy it (str "prompt")).orElse (fun _ => objTruthy it (str "description"))).getD []

def taskIdOf (ext : ExtEnv) (agentName : Str) (it : Obj) : Str :=
  (objTruthy it (str "id")).getD (str "task-" ++ agentName ++ str "-" ++ ext.nowMs)

/-- The task-creation loop of handleCreate. An entry without a truthy cron
or with an empty prompt is skipped (`continue`); an invalid cron expression
makes CronExpressionParser.parse throw, which aborts the loop — and with it
the whole operation — keeping the effects made so far. -/
def createTasksLoop (ext : ExtEnv) (agentName folder jid : Str) :
    List Obj → Sys → Sys × Option Str
  | [], s => (s, none)
  | it :: rest, s =>
    match taskCron it with
    | none => createTasksLoop ext agentName folder jid rest s
    | some cron =>
      if taskPrompt it = [] then createTasksLoop ext agentName folder jid rest s
      else
        match ext.cronNext cron with
        | none => (s, some (ext.cronErr cron))
        | some nextRun =>
          let t : ScheduledTask :=
            { id := taskIdOf ext agentName it,
              group_folder := folder,
              chat_jid := jid,
              prompt := taskPrompt it,
              schedule_type := str "cron",
              schedule_value := cron,
              context_mode := (objTruthy it (str "context_mode")).getD (str "group"),
              next_run := nextRun,
              status := str "active",
              created_at := ext.nowIso }
          createTasksLoop ext agentName folder jid rest (createTask s t)

/-- handleCreate. The result is the state after all effects performed up to
a throw, paired with the thrown message (`none` on success). -/
def handleCreate (ext : ExtEnv) (agentName body : Str) (model : Option Str)
    (s : Sys) : Sys × Option Str :=
  let folder := agentName ++ str "-specialist"
  let jid := jidOf folder
  if ext.isValidGroupFolder folder = false then
    (s, some (str "Invalid folder name: " ++ folder))
  else if (getRegisteredGroup s jid).isSome then
    (s, some (str "Agent \"" ++ agentName ++ str "\" already exists (JID: " ++ jid ++ str ")"))
  else
    match claudeCandidate body with
    | none => (s, some (str "Missing ## CLAUDE.md section"))
    | some content =>
      match checkClaudeSize content with
      | some msg => (s, some msg)
      | none =>
        match validateMountsIsolation agentName (createMounts agentName body) with
        | some msg => (s, some msg)
        | none =>
          let s1 := mkdirs s (partitionDirs agentName)
          let groupDir := pathJoin GROUPS_DIR folder
          let s2 := fileWrite (addDir s1 (pathJoin groupDir (str "logs")))
            (claudeMdPath folder) (FileVal.text content)
          let s3 := setRegisteredGroup s2 jid (createdGroup ext agentName body)
          let s4 := fileWrite (addDir s3 (settingsDirOf folder))
            (settingsPath folder) (FileVal.settings (createEnvVars ext body model))
          match parseSection body Pat.tasks with
          | none => (s4, none)
          | some tsec => createTasksLoop ext agentName folder jid (parseYamlList tsec) s4

-- ### MODIFY operation (handleModify)

/-- Sequencing of modify steps: a thrown error short-circuits, keeping the
state reached so far. -/
def andThen (r : Sys × Option Str) (f : Sys → Sys × Option Str) : Sys × Option Str :=
  match r.2 with
  | some _ => r
  | none => f r.1

/-- findOrchestratorJid: first registry entry whose folder is `main`
(Object.entries order is insertion order), empty string when none. -/
def findOrchJid : List (Str × RegisteredGroup) → Str
  | [] => []
  | (j, g) :: t => if g.folder = str "main" then j else findOrchJid t

def findOrchestratorJid (s : Sys) : Str := findOrchJid s.registry

/-- Target resolution of handleModify: exact name, then the `-specialist`
suffixed variant, then — for the controller's own identity — reverse lookup
of the orchestrator. Returns (folder, jid, group). -/
def resolveModifyTarget (s : Sys) (agentName : Str) : Str × Str × Option RegisteredGroup :=
  if selfMod agentName then
    let j := findOrchestratorJid s
    (str "main", j, if j = [] then none else getRegisteredGroup s j)
  else
    match getRegisteredGroup s (jidOf agentName) with
    | some g => (agentName, jidOf agentName, some g)
    | none =>
      if endsW agentName (str "-specialist") then (agentName, jidOf agentName, none)
      else
        let f1 := agentName ++ str "-specialist"
        (f1, jidOf f1, getRegisteredGroup s (jidOf f1))

/-- Modify step: overwrite CLAUDE.md when the section is present. -/
def modifyClaude (body folder : Str) (s : Sys) : Sys × Option Str :=
  match claudeCandidate body with
  | none => (s, none)
  | some content =>
    match checkClaudeSize content with
    | some msg => (s, some msg)
    | none => (fileWrite s (claudeMdPath folder) (FileVal.text content), none)

/-- Modify step: append to CLAUDE.md when the section is present; the
combined content is validated against the ceiling before any write. -/
def modifyAppend (body folder : Str) (s : Sys) : Sys × Option Str :=
  match parseSection body Pat.appendClaudeMd with
  | none => (s, none)
  | some sec =>
    let appendContent := codeBlockOr sec
    let p := claudeMdPath folder
    let existing :=
      match fileGet s p with
      | some (FileVal.text t) => t
      | _ => []
    let combined := trimEnd existing ++ str "\n\n" ++ appendContent ++ str "\n"
    let lineCount := (splitNl combined).length
    if MAX_CLAUDE_MD_LINES < lineCount then
      (s, some (str "CLAUDE.md would be " ++ natStr lineCount ++ str " lines after append (max "
        ++ natStr MAX_CLAUDE_MD_LINES ++ str ")"))
    else (fileWrite s p (FileVal.text combined), none)

/-- Modify step: update the model in settings.json when a truthy model hint
is given. -/
def modifyModel (model : Option Str) (folder : Str) (s : Sys) : Sys × Option Str :=
  match model with
  | none => (s, none)
  | some m =>
    if m = [] then (s, none)
    else
      match readSettingsEnv s (settingsPath folder) with
      | none => (s, some jsonParseErrMsg)
      | some env =>
        (fileWrite (addDir s (settingsDirOf folder)) (settingsPath folder)
          (FileVal.settings (objUpd env (str "CLAUDE_CODE_USE_MODEL") (resolveModel model))),
         none)

/-- Merge one env record into the settings env: a `$`-prefixed value is a
key looked up in the secret store (applied only when found truthy), any
other pair is taken literally. -/
def envMergeItem (ext : ExtEnv) (env : Obj) (it : Obj) : Obj :=
  it.foldl
    (fun e kv =>
      if isPre (str "$") kv.2 then
        let envKey := kv.2.drop 1
        match objGet (ext.readEnvFile [envKey]) envKey with
        | some v => if v = [] then e else objUpd e envKey v
        | none => e
      else objUpd e kv.1 kv.2)
    env

/-- Modify step: inject env vars when the section is present. -/
def modifyEnv (ext : ExtEnv) (body folder : Str) (s : Sys) : Sys × Option Str :=
  match parseSection body Pat.env with
  | none => (s, none)
  | some sec =>
    match readSettingsEnv s (settingsPath folder) with
    | none => (s, some jsonParseErrMsg)
    | some env0 =>
      let env' := (parseYamlList sec).foldl (envMergeItem ext) env0
      (fileWrite (addDir s (settingsDirOf folder)) (settingsPath folder)
        (FileVal.settings env'), none)

/-- Modify step: append validated mounts to the registered group. The
validation identity is `main` when the literal agent name is `main` or
`orchestrator`, else the agent name. -/
def modifyMounts (body agentName jid : Str) (group : RegisteredGroup)
    (s : Sys) : Sys × Option Str :=
  match parseSection body Pat.mounts with
  | none => (s, none)
  | some sec =>
    let newMounts := mountsOfItems (parseYamlList sec)
    let vname :=
      if agentName = str "main" ∨ agentName = str "orchestrator" then str "main"
      else agentName
    match validateMountsIsolation vname newMounts with
    | some msg => (s, some msg)
    | none =>
      let existingMounts := (group.containerConfig.map ContainerConfig.additionalMounts).getD []
      let cc : ContainerConfig :=
        { additionalMounts := existingMounts ++ newMounts,
          timeout := group.containerConfig.bind ContainerConfig.timeout }
      (setRegisteredGroup s jid { group with containerConfig := some cc }, none)

/-- The task upsert loop of handleModify: update in place when the id was
already present for this group (the id set is computed once, before the
loop), else create; bad cron expressions throw as in handleCreate. -/
def upsertTasksLoop (ext : ExtEnv) (agentName folder jid : Str) (existingIds : List Str) :
    List Obj → Sys → Sys × Option Str
  | [], s => (s, none)
  | it :: rest, s =>
    match taskCron it with
    | none => upsertTasksLoop ext agentName folder jid existingIds rest s
    | some cron =>
      if taskPrompt it = [] then upsertTasksLoop ext agentName folder jid existingIds rest s
      else
        let taskId := taskIdOf ext agentName it
        match ext.cronNext cron with
        | none => (s, some (ext.cronErr cron))
        | some nextRun =>
          if taskId ∈ existingIds then
            upsertTasksLoop ext agentName folder jid existingIds rest
              (updateTask s taskId (taskPrompt it) cron nextRun (str "active"))
          else
            let t : ScheduledTask :=
              { id := taskId, group_folder := folder, chat_jid := jid,
                prompt := taskPrompt it, schedule_type := str "cron",
                schedule_value := cron,
                context_mode := (objTruthy it (str "context_mode")).getD (str "group"),
                next_run := nextRun, status := str "active", created_at := ext.nowIso }
            upsertTasksLoop ext agentName folder jid existingIds rest (createTask s t)

/-- Modify step: add/update scheduled tasks when the section is present. -/
def modifyTasks (ext : ExtEnv) (body agentName folder jid : Str) (s : Sys) : Sys × Option Str :=
  match parseSection body Pat.tasks with
  | none => (s, none)
  | some sec =>
    let existingIds := (getTasksForGroup s folder).map ScheduledTask.id
    upsertTasksLoop ext agentName folder jid existingIds (parseYamlList sec) s

/-- handleModify. -/
def handleModify (ext : ExtEnv) (agentName body : Str) (model : Option Str)
    (s : Sys) : Sys × Option Str :=
  match resolveModifyTarget s agentName with
  | (_, _, none) => (s, some (str "Agent \"" ++ agentName ++ str "\" not found"))
  | (folder, jid, some group) =>
    andThen (modifyClaude body folder s) (fun s1 =>
      andThen (modifyAppend body folder s1) (fun s2 =>
        andThen (modifyModel model folder s2) (fun s3 =>
          andThen (modifyEnv ext body folder s3) (fun s4 =>
            andThen (modifyMounts body agentName jid group s4) (fun s5 =>
              modifyTasks ext body agentName folder jid s5)))))

-- ### DELETE operation (handleDelete)

/-- Archive the files sitting directly in `dir` into `archiveDir`
(fs.readdirSync + renameSync loop; the system never creates
subdirectories inside an inbox/active directory, so only file entries are
moved). -/
def archiveFilesIn (s : Sys) (dir archiveDir : Str) : Sys :=
  let moved := s.files.map (fun f =>
    match splitMarker f.1 (dir ++ [ '/' ]) with
    | some ([], name) =>
      if containsStr name (str "/") then f
      else (pathJoin archiveDir name, f.2)
    | _ => f)
  { s with files := moved }

/-- One subdir of the archive sweep: move inbox/active contents into
archive when the agent dir exists. -/
def archiveSweep (agentName : Str) (s : Sys) (subdir : Str) : Sys :=
  let agentDir := pathJoin (pathJoin SHARED_DIR subdir) agentName
  if pathExists s agentDir = false then s
  else
    [str "inbox", str "active"].foldl
      (fun s' sub =>
        let srcDir := pathJoin agentDir sub
        if pathExists s' srcDir = false then s'
        else
          let archiveDir := pathJoin agentDir (str "archive")
          archiveFilesIn (addDir s' archiveDir) srcDir archiveDir)
      s

/-- handleDelete: delete the tasks, the registration, the group folder and
settings; archive inbox/active shared data. -/
def handleDelete (agentName : Str) (s : Sys) : Sys × Option Str :=
  let resolved :=
    match getRegisteredGroup s (jidOf agentName) with
    | some g => (agentName, jidOf agentName, some g)
    | none =>
      if endsW agentName (str "-specialist") then (agentName, jidOf agentName, none)
      else
        let f1 := agentName ++ str "-specialist"
        (f1, jidOf f1, getRegisteredGroup s (jidOf f1))
  match resolved with
  | (_, _, none) => (s, some (str "Agent \"" ++ agentName ++ str "\" not found"))
  | (folder, jid, some _) =>
    let ts := getTasksForGroup s folder
    let s1 := ts.foldl (fun acc t => deleteTask acc t.id) s
    let s2 := deleteRegisteredGroup s1 jid
    let s3 := rmRec s2 (pathJoin GROUPS_DIR folder)
    let s4 := rmRec s3 (pathJoin (pathJoin DATA_DIR (str "sessions")) folder)
    let s5 := [str "tasks", str "results"].foldl (archiveSweep agentName) s4
    (s5, none)

-- ### File processing (processSpecFile / processApprovedFile / poll)

/-- The note appended when a self-modification is gated. -/
def pendingNote : Str :=
  str "**Pending owner approval.** This spec targets the Orchestrator. Waiting for rename to .APPROVED.md."

/-- The file content after the PENDING_APPROVAL rename (renameSpec appends
the note after a separator). -/
def withPendingNote (content : Str) : Str :=
  content ++ str "\n\n---\n\n" ++ pendingNote

/-- The marker processApprovedFile splits on to strip the appended note. -/
def approvalMarker : Str := str "\n---\n\n**Pending owner approval"

/-- `content.split('\n---\n\n**Pending owner approval')[0]`. -/
def stripApproval (content : Str) : Str := splitFirstAt content approvalMarker

/-- The note of the malformed-spec FAILED transition. -/
def invalidSpecNote : Str :=
  str "**Error:** Invalid spec format. Missing or malformed YAML frontmatter.\nExpected: `operation`, `agent` fields."

/-- processSpecFile: parse, gate self-modifications, block self-deletion,
dispatch; the outcome is the terminal rename performed on the spec file. -/
def processSpecFile (ext : ExtEnv) (content : Str) (s : Sys) : Sys × Outcome :=
  match parseFrontmatter content with
  | none => (s, Outcome.failed invalidSpecNote)
  | some (fm, body) =>
    if selfMod fm.agent && decide (fm.operation ≠ Op.delete) then
      (s, Outcome.pendingApproval)
    else if selfMod fm.agent && decide (fm.operation = Op.delete) then
      (s, Outcome.failed (str "**Error:** Cannot delete the Orchestrator."))
    else
      let r :=
        match fm.operation with
        | Op.create => handleCreate ext fm.agent body fm.model s
        | Op.modify => handleModify ext fm.agent body fm.model s
        | Op.delete => handleDelete fm.agent s
      match r.2 with
      | none => (r.1, Outcome.applied)
      | some msg => (r.1, Outcome.failed (str "**Error:** " ++ msg))

/-- The handler dispatch of processApprovedFile: its switch covers only
create and modify, so a delete operation executes nothing. -/
def approvedDispatch (ext : ExtEnv) (fm : Frontmatter) (body : Str) (s : Sys) :
    Sys × Option Str :=
  match fm.operation with
  | Op.create => handleCreate ext fm.agent body fm.model s
  | Op.modify => handleModify ext fm.agent body fm.model s
  | Op.delete => (s, none)

/-- processApprovedFile: strip the appended approval note, re-parse, run the
create/modify switch, rename to APPLIED or FAILED. -/
def processApprovedFile (ext : ExtEnv) (content : Str) (s : Sys) : Sys × Outcome :=
  match parseFrontmatter (stripApproval content) with
  | none => (s, Outcome.failed (str "**Error:** Could not re-parse spec after approval."))
  | some (fm, body) =>
    let r := approvedDispatch ext fm body s
    match r.2 with
    | none => (r.1, Outcome.applied)
    | some msg => (r.1, Outcome.failed (str "**Error:** " ++ msg))

/-- The poll loop's per-file classification: non-markdown and
already-processed files are skipped, the `.APPROVED.` marker selects the
approved path (checked before the operation prefix), and otherwise the
operation-keyword prefix selects the standard path. -/
def classifyFile (name : Str) : FileClass :=
  if endsW name (str ".md") = false then FileClass.skip
  else if containsStr name (str ".APPLIED.") || containsStr name (str ".FAILED.")
      || containsStr name (str ".PENDING_APPROVAL.") then FileClass.skip
  else if containsStr name (str ".APPROVED.") then FileClass.approvedFile
  else if isPre (str "create-") name || isPre (str "modify-") name
      || isPre (str "delete-") name then FileClass.specFile
  else FileClass.skip

-- ### Derived notions used in statements

/-- The in-code-block flag after scanning a list of lines, as the section
scan computes it: each fence line toggles it. -/
def fenceState (ls : List Str) (b : Bool) : Bool :=
  ls.foldl (fun acc l => if isPre (str "```") l then !acc else acc) b

-- ### Concrete fixtures for witnesses and counterexamples

/-- A concrete external environment: one recognized cron expression, an
empty secret store. -/
def ext0 : ExtEnv :=
  { isValidGroupFolder := fun _ => true,
    cronNext := fun e => if e = str "0 9 * * 1" then some (str "2026-10-13T09:00:00.000Z") else none,
    cronErr := fun _ => str "Invalid cron expression",
    readEnvFile := fun _ => [],
    nowIso := str "2026-10-12T00:00:00.000Z",
    nowMs := str "1760000000000" }

/-- The empty world. -/
def s0 : Sys := ⟨[], [], [], []⟩

/-- A registered group fixture for an agent named `billing`. -/
def gBilling : RegisteredGroup :=
  { name := str "Billing Specialist", folder := str "billing",
    trigger := str "@andy", added_at := str "2026-01-01T00:00:00.000Z",
    containerConfig := some { additionalMounts := [], timeout := some 600000 },
    requiresTrigger := false }

/-- A document of exactly n lines. -/
def nLines (n : Nat) : Str := joinNl (List.replicate n (str "x"))

/-- Create spec content whose tasks section holds one valid entry followed
by one entry with an invalid cron expression. -/
def specC3 : Str :=
  str "---\noperation: create\nagent: billing\n---\n## CLAUDE.md\nhello\n## Scheduled Tasks\n- id: task-a\n  cron: 0 9 * * 1\n  prompt: do a\n- id: task-b\n  cron: not-a-cron\n  prompt: do b"

/-- A body whose only Mounts heading line sits inside a fenced code block. -/
def bodyC7 : Str := str "```\n## Mounts\n```\ncontent"

/-- A body with a present-but-empty Mounts section. -/
def bodyC9 : Str := str "## Mounts\n## CLAUDE.md\nx"

/-- A create body with a mount reaching into another agent partition. -/
def bodyC1 : Str :=
  str "## CLAUDE.md\nhi\n## Mounts\n- hostPath: groups/main/shared/tasks/other\n  containerPath: x"

/-- A minimal create body. -/
def bodyMin : Str := str "## CLAUDE.md\nhi"

/-- A self-targeting modify spec. -/
def specSelfModify : Str := str "---\noperation: modify\nagent: Orchestrator\n---\nHello"

/-- A self-targeting delete spec. -/
def specSelfDelete : Str := str "---\noperation: delete\nagent: orchestrator\n---\nx"

/-- A world already holding a registration for `agent:dup-specialist`. -/
def sysDup : Sys :=
  { registry := [(str "agent:dup-specialist", gBilling)], tasks := [], files := [], dirs := [] }

/-- A world holding a registration for `agent:billing` and a 150-line
CLAUDE.md on disk. -/
def sysApp : Sys :=
  { registry := [(str "agent:billing", gBilling)], tasks := [],
    files := [(claudeMdPath (str "billing"), FileVal.text (nLines 150))], dirs := [] }

/-- An append-only modify body. -/
def bodyApp : Str := str "## Append to CLAUDE.md\nmore"

/-- A create body carrying a 150-line instruction document. -/
def bodyC4 : Str := str "## CLAUDE.md\n" ++ nLines 150

-- ### Helper lemmas: strings

theorem isPre_refl (p : Str) : isPre p p = true := by
  induction p with
  | nil => rfl
  | cons c t ih => simp [isPre, ih]

theorem isPre_append_left (p s t : Str) (h : isPre p s = true) :
    isPre p (s ++ t) = true := by
  induction p generalizing s with
  | nil => rfl
  | cons c p' ih =>
    cases s with
    | nil => simp [isPre] at h
    | cons a s' =>
      simp only [isPre, Bool.and_eq_true, decide_eq_true_eq] at h
      simp only [List.cons_append, isPre, Bool.and_eq_true, decide_eq_true_eq]
      exact ⟨h.1, ih s' h.2⟩

theorem isPre_self_append (p t : Str) : isPre p (p ++ t) = true :=
  isPre_append_left p p t (isPre_refl p)

theorem isPre_iff_exists (p s : Str) : isPre p s = true ↔ ∃ t, s = p ++ t := by
  constructor
  · intro h
    induction p generalizing s with
    | nil => exact ⟨s, rfl⟩
    | cons c p' ih =>
      cases s with
      | nil => simp [isPre] at h
      | cons a s' =>
        simp only [isPre, Bool.and_eq_true, decide_eq_true_eq] at h
        obtain ⟨t, ht⟩ := ih s' h.2
        exact ⟨t, by simp [h.1, ht]⟩
  · rintro ⟨t, rfl⟩
    exact isPre_self_append p t

theorem isPre_length_le (p s : Str) (h : isPre p s = true) : p.length ≤ s.length := by
  obtain ⟨t, rfl⟩ := (isPre_iff_exists p s).mp h
  simp

theorem isPre_append_of_le (p s t : Str) (h : p.length ≤ s.length) :
    isPre p (s ++ t) = isPre p s := by
  induction p generalizing s with
  | nil => rfl
  | cons c p' ih =>
    cases s with
    | nil => simp at h
    | cons a s' =>
      simp only [List.length_cons, Nat.add_le_add_iff_right] at h
      simp only [List.cons_append, isPre, List.append_eq, ih s' h]

theorem containsStr_suffix (t b : Str) (h : containsStr t b = true) :
    ∀ c, containsStr (c :: t) b = true := by
  intro c
  cases t with
  | nil => simp_all [containsStr]
  | cons a t' => simp_all [containsStr]

theorem containsStr_append_mid (x b y : Str) : containsStr (x ++ b ++ y) b = true := by
  induction x with
  | nil =>
    simp only [List.nil_append]
    cases hb : b ++ y with
    | nil => simp [containsStr, List.append_eq_nil.mp hb, isPre]
    | cons c t =>
      rw [containsStr]
      simp [← hb, isPre_self_append]
  | cons c t ih =>
    rw [List.cons_append]
    exact containsStr_suffix _ _ ih c

-- ### Helper lemmas: splitMarker and splitting

theorem splitMarker_decomp (s m a b : Str) (h : splitMarker s m = some (a, b)) :
    s = a ++ m ++ b := by
  induction s generalizing a b with
  | nil =>
    rw [splitMarker] at h
    split at h
    · next hp =>
      obtain ⟨t, ht⟩ := (isPre_iff_exists m []).mp hp
      have hm : m = [] := by cases m with
        | nil => rfl
        | cons c t' => simp at ht
      subst hm
      simp only [Option.some_inj, Prod.mk.injEq] at h
      simp [← h.1, ← h.2]
    · simp at h
  | cons c t ih =>
    rw [splitMarker] at h
    split at h
    · next hp =>
      simp only [Option.some_inj, Prod.mk.injEq] at h
      obtain ⟨x, hx⟩ := (isPre_iff_exists m (c :: t)).mp hp
      rw [← h.1, ← h.2, hx]
      simp [hx]
    · next hp =>
      cases hsm : splitMarker t m with
      | none => rw [hsm] at h; simp at h
      | some p =>
        rw [hsm] at h
        obtain ⟨a', b'⟩ := p
        simp only [Option.map_some', Option.some_inj, Prod.mk.injEq] at h
        have hd := ih a' b' hsm
        rw [← h.1, ← h.2]
        simp [hd]

theorem splitMarker_length_le (s m a b : Str) (h : splitMarker s m = some (a, b)) :
    m.length ≤ s.length := by
  have hd := splitMarker_decomp s m a b h
  subst hd
  simp only [List.length_append]
  omega

theorem splitMarker_append (s m a b t : Str) (h : splitMarker s m = some (a, b)) :
    splitMarker (s ++ t) m = some (a, b ++ t) := by
  induction s generalizing a b with
  | nil =>
    rw [splitMarker] at h
    split at h
    · next hp =>
      have hm : m = [] := by
        cases m with
        | nil => rfl
        | cons c t' => simp [isPre] at hp
      subst hm
      simp only [Option.some_inj, Prod.mk.injEq] at h
      cases t with
      | nil => simp [splitMarker, isPre, ← h.1, ← h.2]
      | cons x t' => simp [splitMarker, isPre, ← h.1, ← h.2]
    · simp at h
  | cons c s' ih =>
    have hlen := splitMarker_length_le _ _ _ _ h
    rw [splitMarker] at h
    have hgoal : splitMarker ((c :: s') ++ t) m =
        (if isPre m ((c :: s') ++ t) = true then
          some ([], ((c :: s') ++ t).drop m.length)
        else (splitMarker (s' ++ t) m).map (fun p => (c :: p.1, p.2))) := by
      rw [List.cons_append, splitMarker]
    rw [hgoal]
    split at h
    · next hp =>
      rw [if_pos (isPre_append_left _ _ _ hp)]
      simp only [Option.some_inj, Prod.mk.injEq] at h ⊢
      refine ⟨h.1, ?_⟩
      rw [← h.2]
      exact List.drop_append_of_le_length hlen
    · next hp =>
      rw [if_neg (by rw [isPre_append_of_le m (c :: s') t hlen]; exact hp)]
      cases hsm : splitMarker s' m with
      | none => rw [hsm] at h; simp at h
      | some p =>
        obtain ⟨a', b'⟩ := p
        rw [hsm] at h
        simp only [Option.map_some', Option.some_inj, Prod.mk.injEq] at h
        rw [ih a' b' hsm]
        simp [← h.1, ← h.2]

theorem splitCh_ne_nil (x : Char) (s : Str) : splitCh x s ≠ [] := by
  cases s with
  | nil => simp [splitCh]
  | cons c t =>
    rw [splitCh]
    split
    · simp
    · cases hs : splitCh x t with
      | nil => simp
      | cons h r => simp

theorem splitCh_append_sep (x : Char) (b : Str) :
    splitCh x (b ++ [x]) = splitCh x b ++ [[]] := by
  induction b with
  | nil => simp [splitCh]
  | cons c t ih =>
    by_cases hc : c = x
    · subst hc
      simp [splitCh, ih]
    · rw [List.cons_append, splitCh, if_neg hc, ih, splitCh, if_neg hc]
      cases hs : splitCh x t with
      | nil => exact absurd hs (splitCh_ne_nil x t)
      | cons h r => simp [hs]

theorem splitNl_append_nl (b : Str) : splitNl (b ++ str "\n") = splitNl b ++ [[]] := by
  have hc : str "\n" = ['\n'] := rfl
  rw [splitNl, splitNl, hc, splitCh_append_sep]

theorem trimEnd_append_nl (s : Str) : trimEnd (s ++ ['\n']) = trimEnd s := by
  rw [trimEnd, trimEnd, List.reverse_append]
  rfl

theorem trim_append_nl (s : Str) : trim (s ++ ['\n']) = trim s := by
  rw [trim, trim, trimEnd_append_nl]

theorem joinNl_append_empty (l : Str) (ls : List Str) :
    joinNl ((l :: ls) ++ [[]]) = joinNl (l :: ls) ++ ['\n'] := by
  induction ls generalizing l with
  | nil => simp [joinNl]
  | cons l2 ls2 ih =>
    show l ++ '\n' :: joinNl ((l2 :: ls2) ++ [[]]) = joinNl (l :: l2 :: ls2) ++ ['\n']
    rw [ih l2]
    rw [show joinNl (l :: l2 :: ls2) = l ++ '\n' :: joinNl (l2 :: ls2) from rfl]
    simp

-- ### Helper lemmas: section extraction

theorem lineMatch_nil (p : Pat) : lineMatch p [] = none := by
  cases p <;> rfl

theorem findHeading_append_empty (p : Pat) (ls : List Str) :
    findHeading p (ls ++ [[]]) =
      (findHeading p ls).map (fun x => (x.1, x.2 ++ [[]])) := by
  induction ls with
  | nil => simp [findHeading, lineMatch_nil]
  | cons l t ih =>
    rw [List.cons_append, findHeading, findHeading]
    cases h : lineMatch p l with
    | some lo => simp
    | none => simpa using ih

theorem findBoundary_append_empty (ls : List Str) (b : Bool) :
    findBoundary (ls ++ [[]]) b = findBoundary ls b := by
  induction ls generalizing b with
  | nil => simp [findBoundary, isPre]
  | cons l t ih =>
    rw [List.cons_append, findBoundary, findBoundary]
    split
    · rw [ih]
    · split
      · rfl
      · rw [ih]

theorem findBoundary_lt_length (ls : List Str) (b : Bool) (k : Nat)
    (h : findBoundary ls b = some k) : k < ls.length := by
  induction ls generalizing b k with
  | nil => simp [findBoundary] at h
  | cons l t ih =>
    rw [findBoundary] at h
    split at h
    · cases hf : findBoundary t (!b) with
      | none => rw [hf] at h; simp at h
      | some k' =>
        rw [hf] at h
        simp only [Option.map_some', Option.some_inj] at h
        subst h
        simpa using Nat.succ_lt_succ (ih _ _ hf)
    · split at h
      · simp only [Option.some_inj] at h
        subst h
        simp
      · cases hf : findBoundary t b with
        | none => rw [hf] at h; simp at h
        | some k' =>
          rw [hf] at h
          simp only [Option.map_some', Option.some_inj] at h
          subst h
          simpa using Nat.succ_lt_succ (ih _ _ hf)

theorem trimJoin_collect_append_empty (ls : List Str) (b : Bool) :
    trim (joinNl (collectSection (ls ++ [[]]) b)) =
      trim (joinNl (collectSection ls b)) := by
  cases h : findBoundary ls b with
  | none =>
    have h1 : collectSection (ls ++ [[]]) b = ls ++ [[]] := by
      rw [collectSection, findBoundary_append_empty, h]
    have h2 : collectSection ls b = ls := by rw [collectSection, h]
    rw [h1, h2]
    cases ls with
    | nil => simp [joinNl, trim, trimStart, trimEnd, isWsCh]
    | cons l t => rw [joinNl_append_empty, trim_append_nl]
  | some k =>
    have hk := findBoundary_lt_length ls b k h
    have h1 : collectSection (ls ++ [[]]) b = List.take k (ls ++ [[]]) := by
      rw [collectSection, findBoundary_append_empty, h]
    have h2 : collectSection ls b = List.take k ls := by rw [collectSection, h]
    rw [h1, h2, List.take_append_of_le_length (Nat.le_of_lt hk)]

/-- Appending a trailing newline to a body does not change any extracted
section: the extra empty line matches no heading and is not a boundary. -/
theorem parseSection_append_nl (b : Str) (p : Pat) :
    parseSection (b ++ str "\n") p = parseSection b p := by
  rw [parseSection, parseSection, sectionText, sectionText, splitNl_append_nl,
    findHeading_append_empty]
  cases h : findHeading p (splitNl b) with
  | none => rfl
  | some lot =>
    obtain ⟨lo, t⟩ := lot
    simp only [Option.map_some']
    rw [show lo :: (t ++ [[]]) = (lo :: t) ++ [[]] from rfl,
      trimJoin_collect_append_empty]

-- ### Helper lemmas: frontmatter under a trailing newline

theorem parseFrontmatter_append_nl (c : Str) (fm : Frontmatter) (body : Str)
    (h : parseFrontmatter c = some (fm, body)) :
    parseFrontmatter (c ++ str "\n") = some (fm, body ++ str "\n") := by
  rw [parseFrontmatter] at h
  split at h
  · next hp =>
    obtain ⟨r, hr⟩ := (isPre_iff_exists _ _).mp hp
    have hdrop : c.drop 4 = r := by rw [hr]; rfl
    have hdrop2 : (c ++ str "\n").drop 4 = r ++ str "\n" := by
      rw [hr, List.append_assoc]; rfl
    rw [parseFrontmatter, if_pos (isPre_append_left _ _ _ (by rw [hr]; exact isPre_self_append _ _)),
      hdrop2]
    rw [hdrop] at h
    cases hsm : splitMarker r (str "\n---\n") with
    | none => rw [hsm] at h; simp at h
    | some yb =>
      obtain ⟨yaml, bod⟩ := yb
      rw [hsm] at h
      rw [splitMarker_append _ _ _ _ _ hsm]
      dsimp only at h ⊢
      cases o1 : objGet (fmLines (splitNl yaml)) (str "operation") with
      | none => rw [o1] at h; simp at h
      | some opStr =>
        cases o2 : objGet (fmLines (splitNl yaml)) (str "agent") with
        | none => rw [o1, o2] at h; simp at h
        | some agent =>
          rw [o1, o2] at h
          simp only at h ⊢
          by_cases ha : agent = []
          · rw [if_pos ha] at h; simp at h
          · rw [if_neg ha] at h ⊢
            by_cases hc1 : opStr = str "create"
            · simp only [if_pos hc1] at h ⊢
              simp only [Option.some_inj, Prod.mk.injEq] at h ⊢
              exact ⟨h.1, by rw [← h.2]⟩
            · simp only [if_neg hc1] at h ⊢
              by_cases hc2 : opStr = str "modify"
              · simp only [if_pos hc2] at h ⊢
                simp only [Option.some_inj, Prod.mk.injEq] at h ⊢
                exact ⟨h.1, by rw [← h.2]⟩
              · simp only [if_neg hc2] at h ⊢
                by_cases hc3 : opStr = str "delete"
                · simp only [if_pos hc3] at h ⊢
                  simp only [Option.some_inj, Prod.mk.injEq] at h ⊢
                  exact ⟨h.1, by rw [← h.2]⟩
                · simp only [if_neg hc3] at h; simp at h
  · simp at h

-- ### Helper lemmas: handlers are insensitive to a trailing newline on the
-- body (they consume the body only through parseSection)

theorem claudeCandidate_append_nl (b : Str) :
    claudeCandidate (b ++ str "\n") = claudeCandidate b := by
  rw [claudeCandidate, claudeCandidate, parseSection_append_nl]

theorem customMountsOf_append_nl (b : Str) :
    customMountsOf (b ++ str "\n") = customMountsOf b := by
  rw [customMountsOf, customMountsOf, parseSection_append_nl]

theorem createMounts_append_nl (a b : Str) :
    createMounts a (b ++ str "\n") = createMounts a b := by
  rw [createMounts, createMounts, customMountsOf_append_nl]

theorem createEnvVars_append_nl (ext : ExtEnv) (b : Str) (m : Option Str) :
    createEnvVars ext (b ++ str "\n") m = createEnvVars ext b m := by
  rw [createEnvVars, createEnvVars, parseSection_append_nl]

theorem createdGroup_append_nl (ext : ExtEnv) (a b : Str) :
    createdGroup ext a (b ++ str "\n") = createdGroup ext a b := by
  rw [createdGroup, createdGroup, createMounts_append_nl]

theorem handleCreate_append_nl (ext : ExtEnv) (a b : Str) (m : Option Str) (s : Sys) :
    handleCreate ext a (b ++ str "\n") m s = handleCreate ext a b m s := by
  simp only [handleCreate, claudeCandidate_append_nl, createMounts_append_nl,
    createdGroup_append_nl, createEnvVars_append_nl, parseSection_append_nl]

theorem modifyClaude_append_nl (b folder : Str) (s : Sys) :
    modifyClaude (b ++ str "\n") folder s = modifyClaude b folder s := by
  rw [modifyClaude, modifyClaude, claudeCandidate_append_nl]

theorem modifyAppend_append_nl (b folder : Str) (s : Sys) :
    modifyAppend (b ++ str "\n") folder s = modifyAppend b folder s := by
  rw [modifyAppend, modifyAppend, parseSection_append_nl]

theorem modifyEnv_append_nl (ext : ExtEnv) (b folder : Str) (s : Sys) :
    modifyEnv ext (b ++ str "\n") folder s = modifyEnv ext b folder s := by
  rw [modifyEnv, modifyEnv, parseSection_append_nl]

theorem modifyMounts_append_nl (b a jid : Str) (g : RegisteredGroup) (s : Sys) :
    modifyMounts (b ++ str "\n") a jid g s = modifyMounts b a jid g s := by
  rw [modifyMounts, modifyMounts, parseSection_append_nl]

theorem modifyTasks_append_nl (ext : ExtEnv) (b a folder jid : Str) (s : Sys) :
    modifyTasks ext (b ++ str "\n") a folder jid s = modifyTasks ext b a folder jid s := by
  rw [modifyTasks, modifyTasks, parseSection_append_nl]

theorem handleModify_append_nl (ext : ExtEnv) (a b : Str) (m : Option Str) (s : Sys) :
    handleModify ext a (b ++ str "\n") m s = handleModify ext a b m s := by
  simp only [handleModify, modifyClaude_append_nl, modifyAppend_append_nl,
    modifyEnv_append_nl, modifyMounts_append_nl, modifyTasks_append_nl]

-- ### Helper lemmas: findSomeOpt and the mount validator

theorem findSomeOpt_eq_none_iff (f : α → Option β) (l : List α) :
    findSomeOpt f l = none ↔ ∀ a ∈ l, f a = none := by
  induction l with
  | nil => simp [findSomeOpt]
  | cons a t ih =>
    rw [findSomeOpt]
    cases h : f a with
    | some b => simp [h]
    | none => simpa [h] using ih

theorem findSomeOpt_eq_some (f : α → Option β) (l : List α) (b : β)
    (h : findSomeOpt f l = some b) : ∃ a ∈ l, f a = some b := by
  induction l with
  | nil => simp [findSomeOpt] at h
  | cons a t ih =>
    rw [findSomeOpt] at h
    split at h
    · next hb => exact ⟨a, by simp, by rw [hb]; exact congrArg _ (Option.some_inj.mp h)⟩
    · obtain ⟨x, hx1, hx2⟩ := ih h
      exact ⟨x, by simp [hx1], hx2⟩

theorem mountViolation_none_iff (A : Str) (m : Mount) :
    mountViolation A m = none ↔
      ∀ sub ∈ SUBDIRS, ∀ B, relAgent m.hostPath sub = some B → B ≠ [] → B = A := by
  rw [mountViolation, findSomeOpt_eq_none_iff]
  constructor
  · intro h sub hsub B hB hBne
    have hz := h sub hsub
    rw [hB] at hz
    dsimp only at hz
    by_contra hne
    rw [if_pos ⟨hBne, hne⟩] at hz
    simp at hz
  · intro h sub hsub
    cases hB : relAgent m.hostPath sub with
    | none => rfl
    | some B =>
      have hz := h sub hsub B hB
      dsimp only
      by_cases hBe : B = []
      · rw [if_neg (by simp [hBe])]
      · rw [if_neg (by simp [hz hBe])]

theorem mountViolation_some (A : Str) (m : Mount) (msg : Str)
    (h : mountViolation A m = some msg) :
    ∃ sub ∈ SUBDIRS, ∃ B, relAgent m.hostPath sub = some B ∧ B ≠ [] ∧ B ≠ A ∧
      msg = violationMsg m.hostPath B sub := by
  rw [mountViolation] at h
  obtain ⟨sub, hsub, hf⟩ := findSomeOpt_eq_some _ _ _ h
  refine ⟨sub, hsub, ?_⟩
  cases hB : relAgent m.hostPath sub with
  | none => rw [hB] at hf; simp at hf
  | some B =>
    rw [hB] at hf
    dsimp only at hf
    split at hf
    · next hcond =>
      exact ⟨B, rfl, hcond.1, hcond.2, (Option.some_inj.mp hf).symm⟩
    · simp at hf

theorem violationMsg_names (hp B sub : Str) :
    containsStr (violationMsg hp B sub) B = true := by
  have h2 := containsStr_append_mid
    (str "Mount \"" ++ hp ++ str "\" crosses into agent \"") B
    (str "\" " ++ sub ++ str " directory")
  have he : violationMsg hp B sub
      = (str "Mount \"" ++ hp ++ str "\" crosses into agent \"") ++ B
        ++ (str "\" " ++ sub ++ str " directory") := by
    simp [violationMsg, List.append_assoc]
  rw [he]
  exact h2

-- ### Helper lemmas: registry / filesystem invariance of the task loops

theorem createTask_registry (s : Sys) (t : ScheduledTask) :
    (createTask s t).registry = s.registry := rfl

theorem createTasksLoop_registry (ext : ExtEnv) (a f j : Str) (items : List Obj) (s : Sys) :
    (createTasksLoop ext a f j items s).1.registry = s.registry := by
  induction items generalizing s with
  | nil => rfl
  | cons it rest ih =>
    rw [createTasksLoop]
    cases taskCron it with
    | none => exact ih s
    | some cron =>
      dsimp only
      split
      · exact ih s
      · cases ext.cronNext cron with
        | none => rfl
        | some nr => exact ih _

theorem createTasksLoop_dirs (ext : ExtEnv) (a f j : Str) (items : List Obj) (s : Sys) :
    (createTasksLoop ext a f j items s).1.dirs = s.dirs := by
  induction items generalizing s with
  | nil => rfl
  | cons it rest ih =>
    rw [createTasksLoop]
    cases taskCron it with
    | none => exact ih s
    | some cron =>
      dsimp only
      split
      · exact ih s
      · cases ext.cronNext cron with
        | none => rfl
        | some nr => exact ih _

theorem createTasksLoop_files (ext : ExtEnv) (a f j : Str) (items : List Obj) (s : Sys) :
    (createTasksLoop ext a f j items s).1.files = s.files := by
  induction items generalizing s with
  | nil => rfl
  | cons it rest ih =>
    rw [createTasksLoop]
    cases taskCron it with
    | none => exact ih s
    | some cron =>
      dsimp only
      split
      · exact ih s
      · cases ext.cronNext cron with
        | none => rfl
        | some nr => exact ih _

theorem regGet_regUpd_self (r : List (Str × RegisteredGroup)) (j : Str) (g : RegisteredGroup) :
    regGet (regUpd r j g) j = some g := by
  induction r with
  | nil => simp [regUpd, regGet]
  | cons p t ih =>
    obtain ⟨j', g'⟩ := p
    rw [regUpd]
    by_cases hj : j' = j
    · rw [if_pos hj, regGet, if_pos rfl]
    · rw [if_neg hj, regGet, if_neg hj, ih]

theorem mem_dirs_addDir (s : Sys) (p q : Str) (h : p ∈ s.dirs) :
    p ∈ (addDir s q).dirs := by
  rw [addDir]
  dsimp only
  split
  · exact h
  · exact List.mem_append_left _ h

theorem mem_dirs_addDir_self (s : Sys) (p : Str) : p ∈ (addDir s p).dirs := by
  rw [addDir]
  dsimp only
  split
  · next h => exact h
  · exact List.mem_append_right _ (by simp)

theorem mem_dirs_mkdirs_of_mem (s : Sys) (ps : List Str) (p : Str) (h : p ∈ s.dirs) :
    p ∈ (mkdirs s ps).dirs := by
  induction ps generalizing s with
  | nil => exact h
  | cons q t ih => exact ih (addDir s q) (mem_dirs_addDir s p q h)

theorem mem_dirs_mkdirs_self (s : Sys) (ps : List Str) (p : Str) (h : p ∈ ps) :
    p ∈ (mkdirs s ps).dirs := by
  induction ps generalizing s with
  | nil => simp at h
  | cons q t ih =>
    rcases List.mem_cons.mp h with h1 | h2
    · subst h1
      exact mem_dirs_mkdirs_of_mem (addDir s p) t p (mem_dirs_addDir_self s p)
    · exact ih (addDir s q) h2

theorem fileWrite_dirs (s : Sys) (p : Str) (v : FileVal) :
    (fileWrite s p v).dirs = s.dirs := rfl

theorem fileWrite_registry (s : Sys) (p : Str) (v : FileVal) :
    (fileWrite s p v).registry = s.registry := rfl

theorem addDir_registry (s : Sys) (p : Str) : (addDir s p).registry = s.registry := rfl

theorem addDir_files (s : Sys) (p : Str) : (addDir s p).files = s.files := rfl

theorem mkdirs_registry (s : Sys) (ps : List Str) : (mkdirs s ps).registry = s.registry := by
  induction ps generalizing s with
  | nil => rfl
  | cons q t ih => exact ih (addDir s q)

theorem mkdirs_files (s : Sys) (ps : List Str) : (mkdirs s ps).files = s.files := by
  induction ps generalizing s with
  | nil => rfl
  | cons q t ih => exact ih (addDir s q)

theorem filesGet_filesPut_self (l : List (Str × FileVal)) (p : Str) (v : FileVal) :
    filesGet (filesPut l p v) p = some v := by
  induction l with
  | nil => simp [filesPut, filesGet]
  | cons x t ih =>
    obtain ⟨q, w⟩ := x
    rw [filesPut]
    by_cases hq : q = p
    · rw [if_pos hq, filesGet, if_pos rfl]
    · rw [if_neg hq, filesGet, if_neg hq, ih]

theorem filesGet_filesPut_ne (l : List (Str × FileVal)) (p q : Str) (v : FileVal)
    (h : p ≠ q) : filesGet (filesPut l q v) p = filesGet l p := by
  induction l with
  | nil => simp [filesPut, filesGet, Ne.symm h]
  | cons x t ih =>
    obtain ⟨q', w⟩ := x
    rw [filesPut]
    by_cases hq : q' = q
    · rw [if_pos hq, filesGet, if_neg (Ne.symm h), filesGet, if_neg (hq ▸ (by simpa [hq] using Ne.symm h))]
    · rw [if_neg hq, filesGet, filesGet]
      by_cases hp : q' = p
      · rw [if_pos hp, if_pos hp]
      · rw [if_neg hp, if_neg hp, ih]

theorem fileGet_fileWrite_self (s : Sys) (p : Str) (v : FileVal) :
    fileGet (fileWrite s p v) p = some v :=
  filesGet_filesPut_self s.files p v

theorem fileGet_fileWrite_ne (s : Sys) (p q : Str) (v : FileVal) (h : p ≠ q) :
    fileGet (fileWrite s q v) p = fileGet s p :=
  filesGet_filesPut_ne s.files p q v h

-- ### Small helper lemmas for the claim theorems

theorem fence_not_heading (l : Str) (h : isPre (str "```") l = true) :
    isPre (str "## ") l = false := by
  cases l with
  | nil => exact absurd h (by decide)
  | cons c t =>
    have e : isPre (str "```") (c :: t) = (decide (('`' : Char) = c) && isPre (str "``") t) := rfl
    rw [e] at h
    simp only [Bool.and_eq_true, decide_eq_true_eq] at h
    obtain ⟨h1, _⟩ := h
    subst h1
    rfl

theorem fenceState_cons (l : Str) (ls : List Str) (b : Bool) :
    fenceState (l :: ls) b = fenceState ls (if isPre (str "```") l then !b else b) := rfl

theorem claudeMdPath_ne_settingsPath (f : Str) : claudeMdPath f ≠ settingsPath f := by
  intro h
  have h2 : (claudeMdPath f).headD ' ' = (settingsPath f).headD ' ' := by rw [h]
  rw [show (claudeMdPath f).headD ' ' = 'g' from rfl,
    show (settingsPath f).headD ' ' = 'd' from rfl] at h2
  exact absurd h2 (by decide)

-- ### Claim C5

/-- C5: processing a create spec for an identifier that already exists in
the registry fails with the "already exists" condition before any registry,
partition, or settings mutation: the world is returned unchanged, with the
duplicate check happening before all effects of the handler. -/
theorem c5_create_duplicate_rejected (ext : ExtEnv) (a body : Str)
    (model : Option Str) (s : Sys) (g : RegisteredGroup)
    (hvalid : ext.isValidGroupFolder (a ++ str "-specialist") = true)
    (hdup : getRegisteredGroup s (jidOf (a ++ str "-specialist")) = some g) :
    handleCreate ext a body model s =
      (s, some (str "Agent \"" ++ a ++ str "\" already exists (JID: "
        ++ jidOf (a ++ str "-specialist") ++ str ")")) := by
  rw [handleCreate]
  dsimp only
  rw [if_neg (by simp [hvalid]), if_pos (by simp [hdup])]

/-- C5 witness. -/
theorem c5_witness :
    handleCreate ext0 (str "dup") bodyMin none sysDup =
      (sysDup, some (str "Agent \"dup\" already exists (JID: "
        ++ jidOf (str "dup" ++ str "-specialist") ++ str ")")) := by
  have h := c5_create_duplicate_rejected ext0 (str "dup") bodyMin none sysDup gBilling
    (by decide) (by decide)
  simpa using h

-- ### Claim C9 (corrected)

/-- C9 counterexample: a body whose Mounts section is present (its heading
matches and the extractor reaches the trim step with empty text) yields the
very same null as a body with no Mounts section at all, so the present-but-
empty case is not distinguished from the absent case. -/
theorem c9_counterexample :
    sectionText bodyC9 Pat.mounts = some [] ∧
      parseSection bodyC9 Pat.mounts = none ∧
      parseSection (str "nothing here") Pat.mounts = none := by
  refine ⟨?_, ?_, ?_⟩ <;> decide

/-- C9 amended: the extractor returns null exactly when the section heading
is absent from the body or the section text trims to empty — `section.trim()
|| null` collapses the present-but-empty case into the same null that
signals absence. -/
theorem c9_amended (body : Str) (p : Pat) :
    parseSection body p = none ↔
      (sectionText body p = none ∨ sectionText body p = some []) := by
  rw [parseSection]
  cases h : sectionText body p with
  | none => simp
  | some sec =>
    by_cases hs : sec = [] <;> simp [hs]

-- ### Claim C3 (corrected)

/-- C3 counterexample: a create spec whose tasks section holds one valid
entry followed by one entry with an invalid cron expression does not skip
the bad entry — the parse throw aborts the handler, the whole spec
transitions to FAILED, and only the earlier entry was created. -/
theorem c3_counterexample :
    (processSpecFile ext0 specC3 s0).2 =
        Outcome.failed (str "**Error:** Invalid cron expression") ∧
      ((processSpecFile ext0 specC3 s0).1.tasks.map ScheduledTask.id) = [str "task-a"] := by
  refine ⟨?_, ?_⟩ <;> decide

/-- C3 amended: a task entry with an invalid cron expression is not
skipped: as soon as the loop reaches it, CronExpressionParser.parse throws
and the loop aborts with that error — failing the whole operation — with
entries before it already applied and entries after it never processed. -/
theorem c3_amended (ext : ExtEnv) (a f j cron : Str) (it : Obj) (rest : List Obj)
    (s : Sys)
    (hcron : taskCron it = some cron)
    (hprompt : taskPrompt it ≠ [])
    (hbad : ext.cronNext cron = none) :
    createTasksLoop ext a f j (it :: rest) s = (s, some (ext.cronErr cron)) := by
  rw [createTasksLoop, hcron]
  dsimp only
  rw [if_neg (by simpa using hprompt), hbad]

/-- C3 witness. -/
theorem c3_witness :
    createTasksLoop ext0 (str "billing") (str "billing-specialist")
        (str "agent:billing-specialist")
        [[(str "cron", str "bad"), (str "prompt", str "p")]] s0 =
      (s0, some (str "Invalid cron expression")) := by
  have h := c3_amended ext0 (str "billing") (str "billing-specialist")
    (str "agent:billing-specialist") (str "bad")
    [(str "cron", str "bad"), (str "prompt", str "p")] [] s0
    (by decide) (by decide) (by decide)
  simpa using h

-- ### Claim C10 (implicit, confirmed)

/-- C10: a spec file carrying the `.APPROVED.` marker is dispatched to the
approved path by the marker alone (whatever its operation prefix), and when
its parsed operation is delete the approved path's switch covers only
create and modify, so no handler runs, the world is unchanged, and the file
is still renamed to APPLIED. -/
theorem c10_approved_delete :
    (∀ name : Str,
      endsW name (str ".md") = true →
      containsStr name (str ".APPLIED.") = false →
      containsStr name (str ".FAILED.") = false →
      containsStr name (str ".PENDING_APPROVAL.") = false →
      containsStr name (str ".APPROVED.") = true →
      classifyFile name = FileClass.approvedFile)
    ∧ (∀ (ext : ExtEnv) (content : Str) (s : Sys) (fm : Frontmatter) (body : Str),
      parseFrontmatter (stripApproval content) = some (fm, body) →
      fm.operation = Op.delete →
      processApprovedFile ext content s = (s, Outcome.applied)) := by
  constructor
  · intro name h1 h2 h3 h4 h5
    rw [classifyFile]
    rw [if_neg (by simp [h1]), if_neg (by simp [h2, h3, h4]), if_pos (by simp [h5])]
  · intro ext content s fm body hparse hop
    rw [processApprovedFile, hparse]
    dsimp only
    rw [approvedDispatch, hop]

/-- C10 witness. -/
theorem c10_witness :
    classifyFile (str "delete-orchestrator.APPROVED.md") = FileClass.approvedFile ∧
      processApprovedFile ext0 specSelfDelete s0 = (s0, Outcome.applied) := by
  constructor
  · exact c10_approved_delete.1 (str "delete-orchestrator.APPROVED.md")
      (by decide) (by decide) (by decide) (by decide) (by decide)
  · exact c10_approved_delete.2 ext0 specSelfDelete s0
      ⟨Op.delete, str "orchestrator", none⟩ (str "x") (by decide) rfl

-- ### Claim C6 (corrected)

/-- C6 counterexample: a delete spec targeting the controller's own
identity that carries the APPROVED state marker is routed to the approved
path (by the marker in its filename) and ends APPLIED, not FAILED — the
approved path's switch has no delete case, so it executes nothing and
renames the file to APPLIED. -/
theorem c6_counterexample :
    classifyFile (str "delete-orch.APPROVED.md") = FileClass.approvedFile ∧
      processApprovedFile ext0 specSelfDelete s0 ≠
        (s0, Outcome.failed (str "**Error:** Cannot delete the Orchestrator.")) ∧
      (processApprovedFile ext0 specSelfDelete s0).2 = Outcome.applied := by
  refine ⟨by decide, by decide, by decide⟩

/-- C6 amended: a delete spec targeting the controller's own identity
processed through the normal path ends in an immediate FAILED transition
with no mutation and is never gated into PENDING_APPROVAL; a delete spec
file carrying the APPROVED state marker, however, goes through the approved
path, which executes no handler, performs no mutation, and renames the file
to APPLIED rather than FAILED. -/
theorem c6_self_delete :
    (∀ (ext : ExtEnv) (content : Str) (s : Sys) (fm : Frontmatter) (body : Str),
      parseFrontmatter content = some (fm, body) →
      selfMod fm.agent = true →
      fm.operation = Op.delete →
      processSpecFile ext content s =
        (s, Outcome.failed (str "**Error:** Cannot delete the Orchestrator.")))
    ∧ (∀ (ext : ExtEnv) (content : Str) (s : Sys) (fm : Frontmatter) (body : Str),
      parseFrontmatter (stripApproval content) = some (fm, body) →
      selfMod fm.agent = true →
      fm.operation = Op.delete →
      processApprovedFile ext content s = (s, Outcome.applied)) := by
  constructor
  · intro ext content s fm body hparse hself hop
    rw [processSpecFile, hparse]
    dsimp only
    rw [if_neg (by simp [hself, hop]), if_pos (by simp [hself, hop])]
  · intro ext content s fm body hparse _ hop
    rw [processApprovedFile, hparse]
    dsimp only
    rw [approvedDispatch, hop]

/-- C6 witness. -/
theorem c6_witness :
    processSpecFile ext0 specSelfDelete s0 =
        (s0, Outcome.failed (str "**Error:** Cannot delete the Orchestrator.")) ∧
      processApprovedFile ext0 (str "---\noperation: delete\nagent: Main\n---\nx") s0 =
        (s0, Outcome.applied) := by
  constructor
  · exact c6_self_delete.1 ext0 specSelfDelete s0
      ⟨Op.delete, str "orchestrator", none⟩ (str "x") (by decide) (by decide) rfl
  · exact c6_self_delete.2 ext0 (str "---\noperation: delete\nagent: Main\n---\nx") s0
      ⟨Op.delete, str "Main", none⟩ (str "x") (by decide) (by decide) rfl

-- ### Claim C7 (corrected)

/-- C7 amended: in the end-boundary scan, fences toggle the in-block flag
and a `## ` line is chosen as the section end boundary exactly when the
flag is clear there — a heading line inside a fenced code block is never
the end boundary (and the chosen boundary is the first eligible line).
However, the heading that locates the section's start is found by a plain
regex with no fence tracking (see the counterexample). -/
theorem c7_fence_isolation (ls : List Str) (b : Bool) (k : Nat)
    (h : findBoundary ls b = some k) :
    k < ls.length ∧ isPre (str "## ") (ls.getD k []) = true ∧
      fenceState (List.take k ls) b = false ∧
      ∀ i, i < k →
        ¬ (fenceState (List.take i ls) b = false ∧
            isPre (str "## ") (ls.getD i []) = true) := by
  induction ls generalizing b k with
  | nil => rw [findBoundary] at h; simp at h
  | cons l t ih =>
    rw [findBoundary] at h
    split at h
    · next hf =>
      cases hfb : findBoundary t (!b) with
      | none => rw [hfb] at h; simp at h
      | some k' =>
        rw [hfb] at h
        simp only [Option.map_some', Option.some_inj] at h
        subst h
        obtain ⟨ih1, ih2, ih3, ih4⟩ := ih (!b) k' hfb
        refine ⟨by simpa using Nat.succ_lt_succ ih1, ?_, ?_, ?_⟩
        · simpa [List.getD_cons_succ] using ih2
        · rw [List.take_succ_cons, fenceState_cons, if_pos hf]
          exact ih3
        · intro i hi hcontra
          obtain ⟨hfi, hhi⟩ := hcontra
          cases i with
          | zero =>
            rw [List.getD_cons_zero] at hhi
            rw [fence_not_heading l hf] at hhi
            exact Bool.false_ne_true hhi
          | succ i' =>
            apply ih4 i' (Nat.lt_of_succ_lt_succ hi)
            constructor
            · rw [List.take_succ_cons, fenceState_cons, if_pos hf] at hfi
              exact hfi
            · rw [List.getD_cons_succ] at hhi
              exact hhi
    · split at h
      · next hf hb =>
        simp only [Option.some_inj] at h
        subst h
        simp only [Bool.and_eq_true, decide_eq_true_eq] at hb
        refine ⟨by simp, by simpa using hb.2, by simpa using hb.1, ?_⟩
        intro i hi
        exact absurd hi (Nat.not_lt_zero i)
      · next hf hb =>
        cases hfb : findBoundary t b with
        | none => rw [hfb] at h; simp at h
        | some k' =>
          rw [hfb] at h
          simp only [Option.map_some', Option.some_inj] at h
          subst h
          obtain ⟨ih1, ih2, ih3, ih4⟩ := ih b k' hfb
          refine ⟨by simpa using Nat.succ_lt_succ ih1, ?_, ?_, ?_⟩
          · simpa [List.getD_cons_succ] using ih2
          · rw [List.take_succ_cons, fenceState_cons, if_neg (by simpa using hf)]
            exact ih3
          · intro i hi hcontra
            obtain ⟨hfi, hhi⟩ := hcontra
            cases i with
            | zero =>
              rw [List.getD_cons_zero] at hhi
              simp only [List.take_zero] at hfi
              rw [fenceState] at hfi
              simp only [List.foldl_nil] at hfi
              apply hb
              simp [hfi, hhi]
            | succ i' =>
              apply ih4 i' (Nat.lt_of_succ_lt_succ hi)
              constructor
              · rw [List.take_succ_cons, fenceState_cons, if_neg (by simpa using hf)] at hfi
                exact hfi
              · rw [List.getD_cons_succ] at hhi
                exact hhi

/-- C7 witness (for the amended theorem): a concrete scan where the fenced
heading at index 2 is skipped and the heading at index 4 is the boundary. -/
theorem c7_witness :
    findBoundary [str "a", str "```", str "## X", str "```", str "## Y"] false = some 4 ∧
      isPre (str "## ")
        (List.getD [str "a", str "```", str "## X", str "```", str "## Y"] 4 []) = true ∧
      fenceState (List.take 4 [str "a", str "```", str "## X", str "```", str "## Y"]) false
        = false := by
  have h := c7_fence_isolation [str "a", str "```", str "## X", str "```", str "## Y"]
    false 4 (by decide)
  exact ⟨by decide, h.2.1, h.2.2.1⟩

/-- C7 counterexample: the heading-locating match ignores fences — in this
body the only line matching the Mounts heading sits inside a fenced code
block (one unclosed fence precedes it), yet parseSection takes it as the
section start and returns a section. -/
theorem c7_counterexample :
    fenceState (List.take 1 (splitNl bodyC7)) false = true ∧
      findHeading Pat.mounts (splitNl bodyC7) = some ([], [str "```", str "content"]) ∧
      parseSection bodyC7 Pat.mounts = some (str "```\ncontent") := by
  refine ⟨by decide, by decide, by decide⟩

-- ### Claim C1 (confirmed)

theorem andThen_none (s : Sys) (f : Sys → Sys × Option Str) :
    andThen (s, none) f = f s := rfl

theorem andThen_some (s : Sys) (e : Str) (f : Sys → Sys × Option Str) :
    andThen (s, some e) f = (s, some e) := rfl

/-- C1: mount isolation. (1) The validator accepts a mount list exactly
when no mount's host path resolves under another agent's tasks, results, or
knowledge partition root — `relAgent` is the path-prefix computation
against `<SHARED_DIR>/<subdir>/`, whose first path component is the owning
agent, not a lexical agent-name match. (2) Any rejection returns the
violation message built for a crossing mount, which names the other agent
B. (3) In handleCreate a validation failure aborts before any effect: the
world is returned unchanged, so the mount is never registered. (4) The same
holds for the mounts step of handleModify. -/
theorem c1_mount_isolation :
    (∀ (A : Str) (mounts : List Mount),
      validateMountsIsolation A mounts = none ↔
        ∀ m ∈ mounts, ∀ sub ∈ SUBDIRS, ∀ B,
          relAgent m.hostPath sub = some B → B ≠ [] → B = A)
    ∧ (∀ (A : Str) (mounts : List Mount) (msg : Str),
      validateMountsIsolation A mounts = some msg →
      ∃ m ∈ mounts, ∃ sub ∈ SUBDIRS, ∃ B,
        relAgent m.hostPath sub = some B ∧ B ≠ [] ∧ B ≠ A ∧
        msg = violationMsg m.hostPath B sub ∧ containsStr msg B = true)
    ∧ (∀ (ext : ExtEnv) (a body : Str) (model : Option Str) (s : Sys) (msg : Str),
      ext.isValidGroupFolder (a ++ str "-specialist") = true →
      getRegisteredGroup s (jidOf (a ++ str "-specialist")) = none →
      (∃ content, claudeCandidate body = some content ∧ checkClaudeSize content = none) →
      validateMountsIsolation a (createMounts a body) = some msg →
      handleCreate ext a body model s = (s, some msg))
    ∧ (∀ (ext : ExtEnv) (a body : Str) (s : Sys) (g : RegisteredGroup) (msg : Str),
      selfMod a = false →
      getRegisteredGroup s (jidOf a) = some g →
      parseSection body Pat.claudeMd = none →
      parseSection body Pat.appendClaudeMd = none →
      parseSection body Pat.env = none →
      (∃ sec, parseSection body Pat.mounts = some sec ∧
        validateMountsIsolation a (mountsOfItems (parseYamlList sec)) = some msg) →
      handleModify ext a body none s = (s, some msg)) := by
  refine ⟨?_, ?_, ?_, ?_⟩
  · intro A mounts
    have e : validateMountsIsolation A mounts = none ↔
        ∀ m ∈ mounts, mountViolation A m = none := by
      rw [validateMountsIsolation, findSomeOpt_eq_none_iff]
    rw [e]
    constructor
    · intro h m hm
      exact (mountViolation_none_iff A m).mp (h m hm)
    · intro h m hm
      exact (mountViolation_none_iff A m).mpr (h m hm)
  · intro A mounts msg h
    rw [validateMountsIsolation] at h
    obtain ⟨m, hm, hv⟩ := findSomeOpt_eq_some _ _ _ h
    obtain ⟨sub, hsub, B, hB, hBne, hBA, hmsg⟩ := mountViolation_some A m msg hv
    exact ⟨m, hm, sub, hsub, B, hB, hBne, hBA, hmsg,
      hmsg ▸ violationMsg_names m.hostPath B sub⟩
  · intro ext a body model s msg hvalid hnodup hcc hviol
    obtain ⟨content, hc1, hc2⟩ := hcc
    rw [handleCreate]
    dsimp only
    rw [if_neg (by simp [hvalid]), if_neg (by simp [hnodup]), hc1]
    dsimp only
    rw [hc2]
    dsimp only
    rw [hviol]
  · intro ext a body s g msg hsm hreg h1 h2 h3 hm
    obtain ⟨sec, hm1, hm2⟩ := hm
    have hna : ¬(a = str "main" ∨ a = str "orchestrator") := by
      rintro (h | h) <;> (subst h; exact absurd hsm (by decide))
    have hres : resolveModifyTarget s a = (a, jidOf a, some g) := by
      rw [resolveModifyTarget, if_neg (by simp [hsm]), hreg]
    have hs1 : modifyClaude body a s = (s, none) := by
      rw [modifyClaude, show claudeCandidate body = none from by
        rw [claudeCandidate, h1]; rfl]
    have hs2 : modifyAppend body a s = (s, none) := by rw [modifyAppend, h2]
    have hs3 : modifyModel none a s = (s, none) := by rw [modifyModel]
    have hs4 : modifyEnv ext body a s = (s, none) := by rw [modifyEnv, h3]
    have hs5 : modifyMounts body a (jidOf a) g s = (s, some msg) := by
      rw [modifyMounts, hm1]
      dsimp only
      rw [if_neg hna, hm2]
    rw [handleModify, hres]
    dsimp only
    simp only [hs1, andThen_none, hs2, hs3, hs4, hs5, andThen_some]

/-- C1 witness: the standard mounts of a fresh agent validate cleanly (and
hence reach into no other agent's partitions), while a create spec mounting
another agent's tasks partition fails with the violation message naming
that agent, leaving the world untouched. -/
theorem c1_witness :
    (∀ m ∈ standardMounts (str "billing"), ∀ sub ∈ SUBDIRS, ∀ B,
      relAgent m.hostPath sub = some B → B ≠ [] → B = str "billing")
    ∧ handleCreate ext0 (str "billing") bodyC1 none s0 =
        (s0, some (violationMsg (str "groups/main/shared/tasks/other")
          (str "other") (str "tasks"))) := by
  constructor
  · exact (c1_mount_isolation.1 (str "billing") (standardMounts (str "billing"))).mp
      (by decide)
  · exact c1_mount_isolation.2.2.1 ext0 (str "billing") bodyC1 none s0
      (violationMsg (str "groups/main/shared/tasks/other") (str "other") (str "tasks"))
      (by decide) (by decide) ⟨str "hi", by decide, by decide⟩ (by decide)

-- ### Claim C4 (confirmed)

theorem fileGet_addDir (s : Sys) (p q : Str) : fileGet (addDir s p) q = fileGet s q := by
  rw [fileGet, fileGet, addDir]

theorem fileGet_setReg (s : Sys) (j : Str) (g : RegisteredGroup) (q : Str) :
    fileGet (setRegisteredGroup s j g) q = fileGet s q := by
  rw [fileGet, fileGet, setRegisteredGroup]

/-- C4: the 150-line ceiling. (1) A document of exactly 150 lines passes
the size check used by create and by modify's overwrite. (2) One of 151
lines is rejected with the size message. (3) In modify's append step, when
the combined document would exceed 150 lines the handler fails before any
write, leaving the world — in particular the existing document file —
unchanged. (4) A create spec with a 150-line document succeeds and writes
that document. -/
theorem c4_size_boundary :
    (∀ c : Str, (splitNl c).length = 150 → checkClaudeSize c = none)
    ∧ (∀ c : Str, (splitNl c).length = 151 →
        checkClaudeSize c = some (str "CLAUDE.md is 151 lines (max 150)"))
    ∧ (∀ (ext : ExtEnv) (a body : Str) (model : Option Str) (s : Sys)
        (g : RegisteredGroup) (sec e : Str),
      selfMod a = false →
      getRegisteredGroup s (jidOf a) = some g →
      parseSection body Pat.claudeMd = none →
      parseSection body Pat.appendClaudeMd = some sec →
      fileGet s (claudeMdPath a) = some (FileVal.text e) →
      MAX_CLAUDE_MD_LINES <
        (splitNl (trimEnd e ++ str "\n\n" ++ codeBlockOr sec ++ str "\n")).length →
      handleModify ext a body model s =
        (s, some (str "CLAUDE.md would be "
          ++ natStr (splitNl (trimEnd e ++ str "\n\n" ++ codeBlockOr sec ++ str "\n")).length
          ++ str " lines after append (max " ++ natStr MAX_CLAUDE_MD_LINES ++ str ")"))
      ∧ fileGet (handleModify ext a body model s).1 (claudeMdPath a)
          = some (FileVal.text e))
    ∧ (∀ (ext : ExtEnv) (a body : Str) (model : Option Str) (s : Sys) (sec : Str),
      ext.isValidGroupFolder (a ++ str "-specialist") = true →
      getRegisteredGroup s (jidOf (a ++ str "-specialist")) = none →
      parseSection body Pat.claudeMd = some sec →
      (splitNl (codeBlockOr sec)).length = 150 →
      validateMountsIsolation a (createMounts a body) = none →
      parseSection body Pat.tasks = none →
      (handleCreate ext a body model s).2 = none
      ∧ fileGet (handleCreate ext a body model s).1 (claudeMdPath (a ++ str "-specialist"))
          = some (FileVal.text (codeBlockOr sec))) := by
  refine ⟨?_, ?_, ?_, ?_⟩
  · intro c h
    rw [checkClaudeSize]
    rw [h, if_neg (by decide)]
  · intro c h
    rw [checkClaudeSize]
    rw [h, if_pos (by decide)]
    decide
  · intro ext a body model s g sec e hsm hreg h1 h2 hfile hbig
    have hres : resolveModifyTarget s a = (a, jidOf a, some g) := by
      rw [resolveModifyTarget, if_neg (by simp [hsm]), hreg]
    have hs1 : modifyClaude body a s = (s, none) := by
      rw [modifyClaude, show claudeCandidate body = none from by
        rw [claudeCandidate, h1]; rfl]
    have hs2 : modifyAppend body a s =
        (s, some (str "CLAUDE.md would be "
          ++ natStr (splitNl (trimEnd e ++ str "\n\n" ++ codeBlockOr sec ++ str "\n")).length
          ++ str " lines after append (max " ++ natStr MAX_CLAUDE_MD_LINES ++ str ")")) := by
      rw [modifyAppend, h2]
      dsimp only
      rw [hfile]
      dsimp only
      rw [if_pos hbig]
    have hrun : handleModify ext a body model s =
        (s, some (str "CLAUDE.md would be "
          ++ natStr (splitNl (trimEnd e ++ str "\n\n" ++ codeBlockOr sec ++ str "\n")).length
          ++ str " lines after append (max " ++ natStr MAX_CLAUDE_MD_LINES ++ str ")")) := by
      rw [handleModify, hres]
      dsimp only
      simp only [hs1, andThen_none, hs2, andThen_some]
    exact ⟨hrun, by rw [hrun]; exact hfile⟩
  · intro ext a body model s sec hvalid hnodup hsec hlen hmounts htasks
    have hcc : claudeCandidate body = some (codeBlockOr sec) := by
      rw [claudeCandidate, hsec]; rfl
    have hchk : checkClaudeSize (codeBlockOr sec) = none := by
      rw [checkClaudeSize]
      rw [hlen, if_neg (by decide)]
    have hrun : handleCreate ext a body model s =
        (fileWrite
          (addDir
            (setRegisteredGroup
              (fileWrite
                (addDir (mkdirs s (partitionDirs a))
                  (pathJoin (pathJoin GROUPS_DIR (a ++ str "-specialist")) (str "logs")))
                (claudeMdPath (a ++ str "-specialist"))
                (FileVal.text (codeBlockOr sec)))
              (jidOf (a ++ str "-specialist")) (createdGroup ext a body))
            (settingsDirOf (a ++ str "-specialist")))
          (settingsPath (a ++ str "-specialist"))
          (FileVal.settings (createEnvVars ext body model)), none) := by
      rw [handleCreate]
      dsimp only
      rw [if_neg (by simp [hvalid]), if_neg (by simp [hnodup]), hcc]
      dsimp only
      rw [hchk]
      dsimp only
      rw [hmounts]
      dsimp only
      rw [htasks]
    constructor
    · rw [hrun]
    · rw [hrun]
      dsimp only
      rw [fileGet_fileWrite_ne _ _ _ _ (claudeMdPath_ne_settingsPath _),
        fileGet_addDir, fileGet_setReg, fileGet_fileWrite_self]

set_option maxRecDepth 16000 in
/-- C4 witness: 150 lines pass, 151 fail; a concrete oversized append fails
and leaves the on-disk document untouched; a concrete 150-line create
succeeds and writes the document. -/
theorem c4_witness :
    checkClaudeSize (nLines 150) = none
    ∧ checkClaudeSize (nLines 151) = some (str "CLAUDE.md is 151 lines (max 150)")
    ∧ handleModify ext0 (str "billing") bodyApp none sysApp =
        (sysApp, some (str "CLAUDE.md would be 153 lines after append (max 150)"))
    ∧ fileGet (handleModify ext0 (str "billing") bodyApp none sysApp).1
        (claudeMdPath (str "billing")) = some (FileVal.text (nLines 150))
    ∧ (handleCreate ext0 (str "billing") bodyC4 none s0).2 = none
    ∧ fileGet (handleCreate ext0 (str "billing") bodyC4 none s0).1
        (claudeMdPath (str "billing-specialist")) = some (FileVal.text (nLines 150)) := by
  have p3 := c4_size_boundary.2.2.1 ext0 (str "billing") bodyApp none sysApp gBilling
    (str "more") (nLines 150) (by decide) (by decide) (by decide) (by decide)
    (by decide) (by decide)
  have p4 := c4_size_boundary.2.2.2 ext0 (str "billing") bodyC4 none s0 (nLines 150)
    (by decide) (by decide) (by decide) (by decide) (by decide) (by decide)
  refine ⟨c4_size_boundary.1 (nLines 150) (by decide),
    c4_size_boundary.2.1 (nLines 151) (by decide),
    p3.1.trans (by decide), p3.2.trans (by decide),
    p4.1, p4.2.trans (by decide)⟩

-- ### Claim C8 (corrected)

theorem regGet_fileWrite (s : Sys) (p : Str) (v : FileVal) (j : Str) :
    getRegisteredGroup (fileWrite s p v) j = getRegisteredGroup s j := rfl

theorem regGet_addDir (s : Sys) (p j : Str) :
    getRegisteredGroup (addDir s p) j = getRegisteredGroup s j := rfl

theorem setReg_dirs (s : Sys) (j : Str) (g : RegisteredGroup) :
    (setRegisteredGroup s j g).dirs = s.dirs := rfl

/-- C8 counterexample: creating agent `billing` registers a group whose
folder field is `billing-specialist`, but the partitions created on disk
and the default mounts use `tasks/billing` (the agent name), not
`tasks/billing-specialist` (the registry folder) — so the partitions are
not `tasks/{folder}` as claimed. -/
theorem c8_counterexample :
    (getRegisteredGroup (handleCreate ext0 (str "billing") bodyMin none s0).1
        (str "agent:billing-specialist")).map RegisteredGroup.folder
      = some (str "billing-specialist")
    ∧ str "groups/main/shared/tasks/billing/inbox"
        ∈ (handleCreate ext0 (str "billing") bodyMin none s0).1.dirs
    ∧ str "groups/main/shared/tasks/billing-specialist/inbox"
        ∉ (handleCreate ext0 (str "billing") bodyMin none s0).1.dirs
    ∧ ((getRegisteredGroup (handleCreate ext0 (str "billing") bodyMin none s0).1
        (str "agent:billing-specialist")).map
          (fun g => g.containerConfig.map
            (fun cc => cc.additionalMounts.map Mount.hostPath)))
      = some (some
          [str "groups/main/shared/tasks/billing",
           str "groups/main/shared/results/billing",
           str "groups/main/shared/knowledge/billing",
           str "groups/main/shared"]) := by
  refine ⟨by decide, by decide, by decide, by decide⟩

/-- C8 amended: for every agent created by create, the agent name (the
spec's agent field) determines the private data partitions — the partitions
created on disk and the default read-write mounts are `tasks/{name}`,
`results/{name}`, `knowledge/{name}` — while the registered definition's
folder field is `{name}-specialist`; the folder determines the partitions
only through stripping the `-specialist` suffix, not as `tasks/{folder}`. -/
theorem c8_partition_naming (ext : ExtEnv) (a body : Str) (model : Option Str)
    (s : Sys) (sec : Str)
    (hvalid : ext.isValidGroupFolder (a ++ str "-specialist") = true)
    (hnodup : getRegisteredGroup s (jidOf (a ++ str "-specialist")) = none)
    (hsec : parseSection body Pat.claudeMd = some sec)
    (hchk : checkClaudeSize (codeBlockOr sec) = none)
    (hmounts : validateMountsIsolation a (createMounts a body) = none) :
    (createdGroup ext a body).folder = a ++ str "-specialist"
    ∧ getRegisteredGroup (handleCreate ext a body model s).1
        (jidOf (a ++ str "-specialist")) = some (createdGroup ext a body)
    ∧ (standardMounts a).map Mount.hostPath =
        [pathJoin (pathJoin SHARED_DIR (str "tasks")) a,
         pathJoin (pathJoin SHARED_DIR (str "results")) a,
         pathJoin (pathJoin SHARED_DIR (str "knowledge")) a,
         SHARED_DIR]
    ∧ ((createdGroup ext a body).containerConfig.map ContainerConfig.additionalMounts)
        = some (standardMounts a ++ customMountsOf body)
    ∧ ∀ p ∈ partitionDirs a, p ∈ (handleCreate ext a body model s).1.dirs := by
  have hcc : claudeCandidate body = some (codeBlockOr sec) := by
    rw [claudeCandidate, hsec]; rfl
  have hreggoal : ∀ s2 : Sys,
      getRegisteredGroup (setRegisteredGroup s2 (jidOf (a ++ str "-specialist"))
        (createdGroup ext a body)) (jidOf (a ++ str "-specialist"))
      = some (createdGroup ext a body) := by
    intro s2
    rw [getRegisteredGroup, setRegisteredGroup]
    exact regGet_regUpd_self _ _ _
  cases htasks : parseSection body Pat.tasks with
  | none =>
    have hrun : handleCreate ext a body model s =
        (fileWrite
          (addDir
            (setRegisteredGroup
              (fileWrite
                (addDir (mkdirs s (partitionDirs a))
                  (pathJoin (pathJoin GROUPS_DIR (a ++ str "-specialist")) (str "logs")))
                (claudeMdPath (a ++ str "-specialist"))
                (FileVal.text (codeBlockOr sec)))
              (jidOf (a ++ str "-specialist")) (createdGroup ext a body))
            (settingsDirOf (a ++ str "-specialist")))
          (settingsPath (a ++ str "-specialist"))
          (FileVal.settings (createEnvVars ext body model)), none) := by
      rw [handleCreate]
      dsimp only
      rw [if_neg (by simp [hvalid]), if_neg (by simp [hnodup]), hcc]
      dsimp only
      rw [hchk]
      dsimp only
      rw [hmounts]
      dsimp only
      rw [htasks]
    refine ⟨rfl, ?_, rfl, rfl, ?_⟩
    · rw [hrun]
      dsimp only
      rw [regGet_fileWrite, regGet_addDir]
      exact hreggoal _
    · intro p hp
      rw [hrun]
      dsimp only
      rw [fileWrite_dirs]
      apply mem_dirs_addDir
      rw [setReg_dirs, fileWrite_dirs]
      apply mem_dirs_addDir
      exact mem_dirs_mkdirs_self s (partitionDirs a) p hp
  | some tsec =>
    have hrun : handleCreate ext a body model s =
        createTasksLoop ext a (a ++ str "-specialist") (jidOf (a ++ str "-specialist"))
          (parseYamlList tsec)
          (fileWrite
            (addDir
              (setRegisteredGroup
                (fileWrite
                  (addDir (mkdirs s (partitionDirs a))
                    (pathJoin (pathJoin GROUPS_DIR (a ++ str "-specialist")) (str "logs")))
                  (claudeMdPath (a ++ str "-specialist"))
                  (FileVal.text (codeBlockOr sec)))
                (jidOf (a ++ str "-specialist")) (createdGroup ext a body))
              (settingsDirOf (a ++ str "-specialist")))
            (settingsPath (a ++ str "-specialist"))
            (FileVal.settings (createEnvVars ext body model))) := by
      rw [handleCreate]
      dsimp only
      rw [if_neg (by simp [hvalid]), if_neg (by simp [hnodup]), hcc]
      dsimp only
      rw [hchk]
      dsimp only
      rw [hmounts]
      dsimp only
      rw [htasks]
    refine ⟨rfl, ?_, rfl, rfl, ?_⟩
    · rw [hrun, getRegisteredGroup, createTasksLoop_registry,
        ← getRegisteredGroup, regGet_fileWrite, regGet_addDir]
      exact hreggoal _
    · intro p hp
      rw [hrun, createTasksLoop_dirs, fileWrite_dirs]
      apply mem_dirs_addDir
      rw [setReg_dirs, fileWrite_dirs]
      apply mem_dirs_addDir
      exact mem_dirs_mkdirs_self s (partitionDirs a) p hp

/-- C8 witness. -/
theorem c8_witness :
    (createdGroup ext0 (str "billing") bodyMin).folder = str "billing" ++ str "-specialist"
    ∧ getRegisteredGroup (handleCreate ext0 (str "billing") bodyMin none s0).1
        (jidOf (str "billing" ++ str "-specialist"))
        = some (createdGroup ext0 (str "billing") bodyMin)
    ∧ ∀ p ∈ partitionDirs (str "billing"),
        p ∈ (handleCreate ext0 (str "billing") bodyMin none s0).1.dirs := by
  have h := c8_partition_naming ext0 (str "billing") bodyMin none s0 (str "hi")
    (by decide) (by decide) (by decide) (by decide) (by decide)
  exact ⟨h.1, h.2.1, h.2.2.2.2⟩

-- ### Claim C2 (confirmed)

theorem approvedDispatch_append_nl (ext : ExtEnv) (fm : Frontmatter) (body : Str)
    (s : Sys) :
    approvedDispatch ext fm (body ++ str "\n") s = approvedDispatch ext fm body s := by
  obtain ⟨op, agent, model⟩ := fm
  cases op with
  | create => exact handleCreate_append_nl ext agent body model s
  | modify => exact handleModify_append_nl ext agent body model s
  | delete => rfl

/-- C2: the approval gate. A create/modify spec whose agent names the
controller's own identity is diverted: processSpecFile performs no registry
or filesystem mutation (the world is returned unchanged; only the spec file
itself is renamed with the pending note appended) and ends in
PENDING_APPROVAL. Re-processing the gated file content through the approved
path strips the note, re-parses the same frontmatter, and runs exactly the
create/modify handler a non-gated spec would run on the same parse, ending
in APPLIED or FAILED accordingly. (The hypothesis on stripApproval says the
appended note is the first occurrence of the approval marker, which holds
for any spec not already containing the marker text.) -/
theorem c2_approval_gate (ext : ExtEnv) (content : Str) (s : Sys)
    (fm : Frontmatter) (body : Str)
    (hparse : parseFrontmatter content = some (fm, body))
    (hself : selfMod fm.agent = true)
    (hop : fm.operation ≠ Op.delete)
    (hstrip : stripApproval (withPendingNote content) = content ++ str "\n") :
    processSpecFile ext content s = (s, Outcome.pendingApproval)
    ∧ processApprovedFile ext (withPendingNote content) s =
        (match (approvedDispatch ext fm body s).2 with
         | none => ((approvedDispatch ext fm body s).1, Outcome.applied)
         | some msg => ((approvedDispatch ext fm body s).1,
             Outcome.failed (str "**Error:** " ++ msg))) := by
  constructor
  · rw [processSpecFile, hparse]
    dsimp only
    rw [if_pos (by simp [hself, hop])]
  · rw [processApprovedFile, hstrip, parseFrontmatter_append_nl content fm body hparse]
    dsimp only
    rw [approvedDispatch_append_nl]

set_option maxRecDepth 16000 in
/-- C2 witness: a concrete gated self-modify spec is diverted with no
mutation, and its gated content re-processed through the approved path runs
the modify handler (which here fails with "not found" on the empty world,
ending FAILED — the same outcome a non-gated modify of this spec would
have). -/
theorem c2_witness :
    processSpecFile ext0 specSelfModify s0 = (s0, Outcome.pendingApproval)
    ∧ processApprovedFile ext0 (withPendingNote specSelfModify) s0 =
        (s0, Outcome.failed (str "**Error:** Agent \"Orchestrator\" not found")) := by
  have h := c2_approval_gate ext0 specSelfModify s0
    ⟨Op.modify, str "Orchestrator", none⟩ (str "Hello")
    (by decide) (by decide) (by decide) (by decide)
  exact ⟨h.1, h.2.trans (by decide)⟩
